import Mathlib

/-!
Verification of `InfiniteCircuitRoad`.

A shallow embedding of `drake/automotive/maliput/utility/infinite_circuit_road.cc`.

* C++ `double` is modelled by exact rational arithmetic (`ℚ`).  Statements that
  copy a stored value, compare two values or give the computed expression are
  the same in both; an equality or a strict bound that combines several
  arithmetic steps is not, and the lemmas of that kind below are marked as
  exact-arithmetic lemmas: they say nothing about the rounded `double` values.
* A `const api::Lane*` of the source road network is a `LaneId` (pointer identity);
  the `api::` interface the circuit consumes is the record `SourceRoad`.
* `DRAKE_ABORT()` / a failed `DRAKE_DEMAND` is `Res.abort` (or `none` for the
  query methods); a `while (true)` loop carries explicit fuel.
-/

namespace InfiniteCircuitRoad

/-- A source lane, identified as the C++ code does by its address. -/
abbrev LaneId := Nat

/-- The enum `api::LaneEnd::Which`. -/
inductive Which where
  | kStart
  | kFinish
  deriving DecidableEq, Repr

/-- The value type `api::LaneEnd`: a lane together with one of its two ends. -/
structure LaneEnd where
  lane : LaneId
  end_ : Which
  deriving DecidableEq, Repr

/-- The value type `api::LanePosition`. -/
structure LanePosition where
  s : ℚ
  r : ℚ
  h : ℚ
  deriving DecidableEq

/-- The value type `api::RBounds`; the constructor takes `r_min` first. -/
structure RBounds where
  r_min : ℚ
  r_max : ℚ
  deriving DecidableEq

/-- The value type `api::Rotation`. -/
structure Rotation where
  roll : ℚ
  pitch : ℚ
  yaw : ℚ
  deriving DecidableEq

/-- The value type `api::IsoLaneVelocity`. -/
structure IsoLaneVelocity where
  sigma_v : ℚ
  rho_v : ℚ
  eta_v : ℚ
  deriving DecidableEq

/-- The value type `api::GeoPosition`. -/
structure GeoPosition where
  x : ℚ
  y : ℚ
  z : ℚ
  deriving DecidableEq

/-- The value type `api::RoadPosition`. -/
structure RoadPosition where
  lane : LaneId
  pos : LanePosition
  deriving DecidableEq

/-- The consumed road-graph capability: the methods of `api::RoadGeometry` and of
its `api::Lane` objects that the circuit calls.  `GetOngoingBranches l e` is the
`api::LaneEndSet` at end `e` of lane `l`, listed by `get(i)` index. -/
structure SourceRoad where
  length : LaneId → ℚ
  GetOngoingBranches : LaneId → Which → List LaneEnd
  lane_bounds : LaneId → ℚ → RBounds
  driveable_bounds : LaneId → ℚ → RBounds
  ToGeoPosition : LaneId → LanePosition → GeoPosition
  GetOrientation : LaneId → LanePosition → Rotation
  EvalMotionDerivatives : LaneId → LanePosition → IsoLaneVelocity → LanePosition
  linear_tolerance : ℚ
  angular_tolerance : ℚ

/-- The struct `InfiniteCircuitRoad::Lane::Record`. -/
structure Record where
  lane : LaneId
  start_circuit_s : ℚ
  end_circuit_s : ℚ
  is_reversed : Bool
  deriving DecidableEq

/-- Outcome of a computation that may abort or exhaust its loop fuel. -/
inductive Res (α : Type) where
  | ok : α → Res α
  | abort : Res α
  | outOfFuel : Res α
  deriving DecidableEq

/-- Assignment `m[k] = v` on the `std::map` `seen_records`. -/
def mapSet (m : List (LaneEnd × Nat)) (k : LaneEnd) (v : Nat) : List (LaneEnd × Nat) :=
  match m with
  | [] => [(k, v)]
  | (k', v') :: rest => if k' = k then (k, v) :: rest else (k', v') :: mapSet rest k v

/-- Membership test `m.count(k)` on the `std::map` `seen_records`. -/
def mapCount (m : List (LaneEnd × Nat)) (k : LaneEnd) : Bool :=
  match m with
  | [] => false
  | (k', _) :: rest => if k' = k then true else mapCount rest k

/-- Read access `m[k]` on the `std::map` `seen_records`; an absent key reads as
the value-initialised `0`. -/
def mapGet (m : List (LaneEnd × Nat)) (k : LaneEnd) : Nat :=
  match m with
  | [] => 0
  | (k', v') :: rest => if k' = k then v' else mapGet rest k

/-- The inner search loop of the constructor (lines 155-166): starting with
`bi` at the head of `branches`, advance while the branch's lane differs from
`specified_lane`; running past the last branch aborts (`none`). -/
def find_bi (specified_lane : LaneId) : List LaneEnd → Nat → Option Nat
  | [], _ => none
  | b :: rest, bi => if b.lane ≠ specified_lane then find_bi specified_lane rest (bi + 1) else some bi

/-- The local variables of the constructor's walk: `seen_records`, `start_s`,
`current`, `path_it` (as the part of `path` not yet consumed) and the member
`records_`. -/
structure WalkState where
  seen_records : List (LaneEnd × Nat)
  start_s : ℚ
  current : LaneEnd
  path_it : List LaneId
  records_ : List Record

/-- Result of one pass through the body of `while (true)`. -/
inductive Step where
  | brk : WalkState → Step
  | cont : WalkState → Step
  | abort : Step

/-- The initialiser of the local `other_end` (lines 143-146): the end of the
current lane opposite to the one entered. -/
def other_end (current : LaneEnd) : Which :=
  if current.end_ = Which.kStart then Which.kFinish else Which.kStart

/-- One pass through the body of the constructor's `while (true)` loop
(lines 127-182). -/
def step (src : SourceRoad) (path : List LaneId) (st : WalkState) : Step :=
  let end_s := st.start_s + src.length st.current.lane
  let seen_records := mapSet st.seen_records st.current st.records_.length
  let records_ := st.records_ ++
    [Record.mk st.current.lane st.start_s end_s (decide (st.current.end_ = Which.kFinish))]
  let start_s := end_s
  if path.length > 0 ∧ st.path_it = [] then
    Step.brk ⟨seen_records, start_s, st.current, st.path_it, records_⟩
  else
    let branches := src.GetOngoingBranches st.current.lane (other_end st.current)
    if ¬ (branches.length > 0) then Step.abort
    else if path.length > 0 then
      match st.path_it with
      | [] => Step.abort  -- not reached: `path_it == path.end()` left the loop above
      | specified_lane :: rest =>
        match find_bi specified_lane branches 0 with
        | none => Step.abort
        | some bi =>
          match branches[bi]? with
          | none => Step.abort  -- not reached: `find_bi` returns an index below `size()`
          | some current => Step.cont ⟨seen_records, start_s, current, rest, records_⟩
    else
      match branches[0]? with
      | none => Step.abort  -- not reached: `branches->size() > 0` was demanded
      | some current =>
        if mapCount seen_records current then
          Step.brk ⟨seen_records, start_s, current, st.path_it, records_⟩
        else
          Step.cont ⟨seen_records, start_s, current, st.path_it, records_⟩

/-- The constructor's `while (true)` loop, run for at most `fuel` passes. -/
def walk (src : SourceRoad) (path : List LaneId) : Nat → WalkState → Res WalkState
  | 0, _ => Res.outOfFuel
  | fuel + 1, st =>
    match step src path st with
    | Step.brk st' => Res.ok st'
    | Step.cont st' => walk src path fuel st'
    | Step.abort => Res.abort

/-- The re-measuring loop of lines 191-196, from running offset `start_s`;
returns the rewritten records and the final `start_s`. -/
def remeasure (src : SourceRoad) : List Record → ℚ → List Record × ℚ
  | [], start_s => ([], start_s)
  | r :: rs, start_s =>
    let e := start_s + src.length r.lane
    let rest := remeasure src rs e
    (Record.mk r.lane start_s e r.is_reversed :: rest.1, rest.2)

/-- The state of `InfiniteCircuitRoad::Lane` read by the queries. -/
structure Lane where
  records_ : List Record
  cycle_length_ : ℚ
  deriving DecidableEq

/-- The constructor `InfiniteCircuitRoad::Lane::Lane` (lines 100-200). -/
def Lane.ctor (fuel : Nat) (src : SourceRoad) (start : LaneEnd) (path : List LaneId) :
    Res Lane :=
  match walk src path fuel ⟨[], 0, start, path, []⟩ with
  | Res.ok st =>
    if path.length = 0 ∧ mapGet st.seen_records st.current > 0 then
      let trimmed := st.records_.drop (mapGet st.seen_records st.current)
      let m := remeasure src trimmed 0
      Res.ok ⟨m.1, m.2⟩
    else
      Res.ok ⟨st.records_, st.start_s⟩
  | Res.abort => Res.abort
  | Res.outOfFuel => Res.outOfFuel

/-- Modelled from the spec: the member `Lane::circuit_s`, called by both scans,
is declared in the header `infinite_circuit_road.h`, which is missing.  The spec
states that no coordinate wraparound is performed, so the circuit coordinate is
the queried coordinate itself. -/
def Lane.circuit_s (_lane : Lane) (s : ℚ) : ℚ := s

/-- The `for` loop of `GetPathIndex` (lines 309-314) over the records from
index `i` on; falling off the end is `none`. -/
def GetPathIndex_loop (circuit_s : ℚ) : List Record → Nat → Option Nat
  | [], _ => none
  | r :: rest, i =>
    if circuit_s < r.end_circuit_s then some i else GetPathIndex_loop circuit_s rest (i + 1)

/-- The method `InfiniteCircuitRoad::Lane::GetPathIndex` (lines 307-316). -/
def Lane.GetPathIndex (lane : Lane) (s : ℚ) : Option Nat :=
  GetPathIndex_loop (lane.circuit_s s) lane.records_ 0

/-- The `for` loop of `ProjectToSourceRoad` (lines 323-342); falling off the
end is `none`. -/
def ProjectToSourceRoad_loop (src : SourceRoad) (lane_pos : LanePosition) (circuit_s : ℚ) :
    List Record → Option (RoadPosition × Bool)
  | [] => none
  | r :: rest =>
    if circuit_s < r.end_circuit_s then
      let s_offset := circuit_s - r.start_circuit_s
      if r.is_reversed then
        some (⟨r.lane, ⟨src.length r.lane - s_offset, -lane_pos.r, lane_pos.h⟩⟩, true)
      else
        some (⟨r.lane, ⟨s_offset, lane_pos.r, lane_pos.h⟩⟩, false)
    else ProjectToSourceRoad_loop src lane_pos circuit_s rest

/-- The method `InfiniteCircuitRoad::Lane::ProjectToSourceRoad` (lines 319-348). -/
def Lane.ProjectToSourceRoad (src : SourceRoad) (lane : Lane) (lane_pos : LanePosition) :
    Option (RoadPosition × Bool) :=
  ProjectToSourceRoad_loop src lane_pos (lane.circuit_s lane_pos.s) lane.records_

/-- The method `InfiniteCircuitRoad::Lane::do_lane_bounds` (lines 244-251). -/
def Lane.do_lane_bounds (src : SourceRoad) (lane : Lane) (s : ℚ) : Option RBounds :=
  match lane.ProjectToSourceRoad src ⟨s, 0, 0⟩ with
  | none => none
  | some (rp, is_reversed) =>
    let bounds := src.lane_bounds rp.lane rp.pos.s
    some (if is_reversed then RBounds.mk (-bounds.r_max) (-bounds.r_min) else bounds)

/-- The method `InfiniteCircuitRoad::Lane::do_driveable_bounds` (lines 254-261). -/
def Lane.do_driveable_bounds (src : SourceRoad) (lane : Lane) (s : ℚ) : Option RBounds :=
  match lane.ProjectToSourceRoad src ⟨s, 0, 0⟩ with
  | none => none
  | some (rp, is_reversed) =>
    let bounds := src.driveable_bounds rp.lane rp.pos.s
    some (if is_reversed then RBounds.mk (-bounds.r_max) (-bounds.r_min) else bounds)

/-- The method `InfiniteCircuitRoad::Lane::DoToGeoPosition` (lines 264-269). -/
def Lane.DoToGeoPosition (src : SourceRoad) (lane : Lane) (lane_pos : LanePosition) :
    Option GeoPosition :=
  match lane.ProjectToSourceRoad src lane_pos with
  | none => none
  | some (rp, _) => some (src.ToGeoPosition rp.lane rp.pos)

/-- The method `InfiniteCircuitRoad::Lane::DoGetOrientation` (lines 272-284); the
`<cmath>` constant `M_PI` is a parameter. -/
def Lane.DoGetOrientation (M_PI : ℚ) (src : SourceRoad) (lane : Lane)
    (lane_pos : LanePosition) : Option Rotation :=
  match lane.ProjectToSourceRoad src lane_pos with
  | none => none
  | some (rp, is_reversed) =>
    let result := src.GetOrientation rp.lane rp.pos
    some (if is_reversed then
        Rotation.mk (-result.roll) (-result.pitch) (result.yaw + M_PI)
      else result)

/-- The method `InfiniteCircuitRoad::Lane::DoEvalMotionDerivatives` (lines 287-304). -/
def Lane.DoEvalMotionDerivatives (src : SourceRoad) (lane : Lane)
    (position : LanePosition) (velocity : IsoLaneVelocity) : Option LanePosition :=
  match lane.ProjectToSourceRoad src position with
  | none => none
  | some (rp, is_reversed) =>
    let position_dot := src.EvalMotionDerivatives rp.lane rp.pos
      (if is_reversed then
        IsoLaneVelocity.mk (-velocity.sigma_v) (-velocity.rho_v) velocity.eta_v
      else velocity)
    some (if is_reversed then
        LanePosition.mk (position_dot.s * -1) (position_dot.r * -1) position_dot.h
      else position_dot)

/-- A small source road: three lanes 0 → 1 → 2 → 0 of length 10 joined
finish-to-start; lane 3 of length 7 whose finish end continues into lane 2 (at
its start) or into lane 1 (at its finish); and the start end of lane 1
continuing into lane 3 at its finish. -/
def demoRoad : SourceRoad where
  length := fun l => if l = 3 then 7 else 10
  GetOngoingBranches := fun l e =>
    match l, e with
    | 0, Which.kFinish => [⟨1, Which.kStart⟩]
    | 1, Which.kFinish => [⟨2, Which.kStart⟩]
    | 2, Which.kFinish => [⟨0, Which.kStart⟩]
    | 3, Which.kFinish => [⟨2, Which.kStart⟩, ⟨1, Which.kFinish⟩]
    | 1, Which.kStart => [⟨3, Which.kFinish⟩]
    | _, _ => []
  lane_bounds := fun _ _ => ⟨-2, 3⟩
  driveable_bounds := fun _ _ => ⟨-4, 5⟩
  ToGeoPosition := fun l p => ⟨p.s, p.r + l, p.h⟩
  GetOrientation := fun _ p => ⟨p.h, p.r, p.s⟩
  EvalMotionDerivatives := fun _ p v => ⟨v.sigma_v + p.r, v.rho_v, v.eta_v⟩
  linear_tolerance := 1 / 100
  angular_tolerance := 1 / 1000

/-- The circuit lane built over `demoRoad` from the start of lane 3 along the
explicit path 1, 3: lane 3 forwards, then lanes 1 and 3 against their direction. -/
def demoLane : Lane :=
  ⟨[⟨3, 0, 7, false⟩, ⟨1, 7, 17, true⟩, ⟨3, 17, 24, true⟩], 24⟩

/-- The lane-end at which a record's traversal enters its source lane. -/
def Record.laneEnd (r : Record) : LaneEnd :=
  ⟨r.lane, if r.is_reversed then Which.kFinish else Which.kStart⟩

/-- The records `rs` are laid end to end from offset `a` up to offset `c`, each
one spanning exactly the length of its source lane. -/
def Measured (src : SourceRoad) : ℚ → List Record → ℚ → Prop
  | a, [], c => a = c
  | a, r :: rs, c =>
    r.start_circuit_s = a ∧ r.end_circuit_s = a + src.length r.lane ∧
      Measured src r.end_circuit_s rs c

/-- Loop invariant of the constructor's walk. -/
def WalkInv (src : SourceRoad) (st : WalkState) : Prop :=
  Measured src 0 st.records_ st.start_s ∧
    ∀ k, mapCount st.seen_records k = true → mapGet st.seen_records k < st.records_.length

/-- The record pushed by one pass of the loop from state `st`. -/
def pushed (src : SourceRoad) (st : WalkState) : Record :=
  Record.mk st.current.lane st.start_s (st.start_s + src.length st.current.lane)
    (decide (st.current.end_ = Which.kFinish))

/-- The records `tail` pushed by the explicit-path walk from the current
lane-end `cur` with the lanes `path` still to follow. -/
inductive ExplicitTail (src : SourceRoad) : LaneEnd → List LaneId → List Record → Prop
  | last (cur : LaneEnd) (r : Record) : r.laneEnd = cur → ExplicitTail src cur [] [r]
  | next (cur : LaneEnd) (r : Record) (p : LaneId) (ps : List LaneId) (bi : Nat)
      (nxt : LaneEnd) (tail : List Record) :
      r.laneEnd = cur →
      find_bi p (src.GetOngoingBranches cur.lane (other_end cur)) 0 = some bi →
      (src.GetOngoingBranches cur.lane (other_end cur))[bi]? = some nxt →
      ExplicitTail src nxt ps tail → ExplicitTail src cur (p :: ps) (r :: tail)

/-- The ongoing branches at the far end of a traversal that entered at `e`. -/
def farBranches (src : SourceRoad) (e : LaneEnd) : List LaneEnd :=
  src.GetOngoingBranches e.lane (other_end e)

/-- The `i`-th lane-end traversed when following `path` from `start`, taking at
each far end the first ongoing branch whose lane is the next path entry; `none`
once an entry is not found (or past the end of the path). -/
def traversed (src : SourceRoad) (start : LaneEnd) (path : List LaneId) : Nat → Option LaneEnd
  | 0 => some start
  | i + 1 =>
    match traversed src start path i, path[i]? with
    | some e, some p => (farBranches src e).find? (fun b => decide (b.lane = p))
    | _, _ => none

/-- Three lanes of length 10: lane 0 runs into lane 1, lane 1 into lane 2 and
lane 2 back into lane 1 (always finish to start); nothing leads back to lane 0. -/
def lollipopRoad : SourceRoad where
  length := fun _ => 10
  GetOngoingBranches := fun l e =>
    match l, e with
    | 0, Which.kFinish => [⟨1, Which.kStart⟩]
    | 1, Which.kFinish => [⟨2, Which.kStart⟩]
    | 2, Which.kFinish => [⟨1, Which.kStart⟩]
    | _, _ => []
  lane_bounds := fun _ _ => ⟨-2, 3⟩
  driveable_bounds := fun _ _ => ⟨-4, 5⟩
  ToGeoPosition := fun _ p => ⟨p.s, p.r, p.h⟩
  GetOrientation := fun _ _ => ⟨0, 0, 0⟩
  EvalMotionDerivatives := fun _ _ v => ⟨v.sigma_v, v.rho_v, v.eta_v⟩
  linear_tolerance := 1 / 100
  angular_tolerance := 1 / 1000


/-- Ongoing branch index 0 at the far end of a traversal that entered at `e`,
if there is any branch there. -/
def branch0 (src : SourceRoad) (e : LaneEnd) : Option LaneEnd :=
  (src.GetOngoingBranches e.lane (other_end e))[0]?

/-- The branch-0 walk from `start`: the `j`-th lane-end reached by always taking
ongoing branch index 0 at the far end; `none` after a dead end. -/
def orbit (src : SourceRoad) (start : LaneEnd) : Nat → Option LaneEnd
  | 0 => some start
  | j + 1 =>
    match orbit src start j with
    | some e => branch0 src e
    | none => none

/-- What the auto-detect walk has recorded in state `st`: record `i` is the
traversal of the `i`-th lane-end of the branch-0 walk, `seen_records` maps
exactly those lane-ends to their indices, and `current` is the next lane-end
of the branch-0 walk. -/
def AutoRec (src : SourceRoad) (start : LaneEnd) (st : WalkState) : Prop :=
  orbit src start st.records_.length = some st.current ∧
  (∀ (i : Nat) (r : Record), st.records_[i]? = some r → orbit src start i = some r.laneEnd) ∧
  (∀ e, mapCount st.seen_records e = true →
    ∃ i, i < st.records_.length ∧ orbit src start i = some e) ∧
  (∀ (i : Nat) (e : LaneEnd), i < st.records_.length → orbit src start i = some e →
    mapCount st.seen_records e = true ∧ mapGet st.seen_records e = i)

/-- Loop invariant of the auto-detect walk at the head of the loop: on top of
`AutoRec`, the current lane-end has not been recorded yet. -/
def AutoInv (src : SourceRoad) (start : LaneEnd) (st : WalkState) : Prop :=
  AutoRec src start st ∧ mapCount st.seen_records st.current = false

/-- A lane-end numbered as `2 * lane` (start) or `2 * lane + 1` (finish). -/
def LaneEnd.code (e : LaneEnd) : Nat :=
  2 * e.lane + (if e.end_ = Which.kFinish then 1 else 0)

/-- The source road has (at most) `N` lanes: every lane reachable through an
ongoing branch is one of the lanes `0, ..., N - 1`. -/
def HasLanes (src : SourceRoad) (N : Nat) : Prop :=
  ∀ (l : LaneId) (e : Which) (b : LaneEnd), b ∈ src.GetOngoingBranches l e → b.lane < N

/-- A single lane of length 10 with no ongoing branch at either end. -/
def deadEndRoad : SourceRoad where
  length := fun _ => 10
  GetOngoingBranches := fun _ _ => []
  lane_bounds := fun _ _ => ⟨-2, 3⟩
  driveable_bounds := fun _ _ => ⟨-4, 5⟩
  ToGeoPosition := fun _ p => ⟨p.s, p.r, p.h⟩
  GetOrientation := fun _ _ => ⟨0, 0, 0⟩
  EvalMotionDerivatives := fun _ _ v => ⟨v.sigma_v, v.rho_v, v.eta_v⟩
  linear_tolerance := 1 / 100
  angular_tolerance := 1 / 1000


/-- The members of `InfiniteCircuitRoad` read by its methods: the source road
geometry `source_` and the single lane `lane_` (`junction_` and `segment_` hold
nothing but their identifier and a pointer back to the road). -/
structure Road where
  source_ : SourceRoad
  lane_ : Lane

/-- A `const api::BranchPoint*`. -/
abbrev BranchPointRef := Nat

/-- The method `InfiniteCircuitRoad::do_num_junctions` (line 32). -/
def Road.do_num_junctions (_road : Road) : Int := 1

/-- The method `InfiniteCircuitRoad::do_num_branch_points` (line 38). -/
def Road.do_num_branch_points (_road : Road) : Int := 0

/-- The method `InfiniteCircuitRoad::do_branch_point` (line 41): `DRAKE_ABORT()`. -/
def Road.do_branch_point (_road : Road) (_index : Int) : Option BranchPointRef := none

/-- The method `InfiniteCircuitRoad::do_linear_tolerance` (lines 50-52). -/
def Road.do_linear_tolerance (road : Road) : ℚ := road.source_.linear_tolerance

/-- The method `InfiniteCircuitRoad::do_angular_tolerance` (lines 55-57). -/
def Road.do_angular_tolerance (road : Road) : ℚ := road.source_.angular_tolerance

/-- The method `InfiniteCircuitRoad::Junction::do_num_segments` (line 71), for
the junction of `road`. -/
def Junction.do_num_segments (_road : Road) : Int := 1

/-- The method `InfiniteCircuitRoad::Segment::do_num_lanes` (line 91), for the
segment of `road`. -/
def Segment.do_num_lanes (_road : Road) : Int := 1

/-- The method `InfiniteCircuitRoad::Segment::do_lane` (lines 94-97), for the
segment of `road`: `DRAKE_DEMAND(index == 0)`, then the road's lane. -/
def Segment.do_lane (road : Road) (index : Int) : Option Lane :=
  if index = 0 then some road.lane_ else none

/-- The method `InfiniteCircuitRoad::Lane::do_index` (line 211). -/
def Lane.do_index (_lane : Lane) : Int := 0

/-- The method `InfiniteCircuitRoad::Lane::do_to_left` (line 214); `none` is the
returned `nullptr`. -/
def Lane.do_to_left (_lane : Lane) : Option LaneId := none

/-- The method `InfiniteCircuitRoad::Lane::do_to_right` (line 217); `none` is the
returned `nullptr`. -/
def Lane.do_to_right (_lane : Lane) : Option LaneId := none

/-- The method `InfiniteCircuitRoad::Lane::DoGetBranchPoint` (lines 221-223):
`DRAKE_ABORT()`. -/
def Lane.DoGetBranchPoint (_lane : Lane) (_which : Which) : Option BranchPointRef := none

/-- The method `InfiniteCircuitRoad::Lane::DoGetConfluentBranches` (lines
226-228): `DRAKE_ABORT()`. -/
def Lane.DoGetConfluentBranches (_lane : Lane) (_which : Which) : Option (List LaneEnd) :=
  none

/-- The method `InfiniteCircuitRoad::Lane::DoGetOngoingBranches` (lines 231-233):
`DRAKE_ABORT()`. -/
def Lane.DoGetOngoingBranches (_lane : Lane) (_which : Which) : Option (List LaneEnd) :=
  none

/-- The method `InfiniteCircuitRoad::Lane::DoGetDefaultBranch` (lines 236-238):
`DRAKE_ABORT()`. -/
def Lane.DoGetDefaultBranch (_lane : Lane) (_which : Which) : Option LaneEnd := none


/-- A tail and a loop: the start end of lane 0 continues into the start of lane
1, lane 1 runs into lane 2 and lane 2 back into lane 1 (finish to start); every
lane has length 10. -/
def tailLoopRoad : SourceRoad where
  length := fun _ => 10
  GetOngoingBranches := fun l e =>
    match l, e with
    | 0, Which.kStart => [⟨1, Which.kStart⟩]
    | 1, Which.kFinish => [⟨2, Which.kStart⟩]
    | 2, Which.kFinish => [⟨1, Which.kStart⟩]
    | _, _ => []
  lane_bounds := fun _ _ => ⟨-2, 3⟩
  driveable_bounds := fun _ _ => ⟨-4, 5⟩
  ToGeoPosition := fun _ p => ⟨p.s, p.r, p.h⟩
  GetOrientation := fun _ _ => ⟨0, 0, 0⟩
  EvalMotionDerivatives := fun _ _ v => ⟨v.sigma_v, v.rho_v, v.eta_v⟩
  linear_tolerance := 1 / 100
  angular_tolerance := 1 / 1000

end InfiniteCircuitRoad

/-! The demo program `drake/automotive/automotive_demo.cc` (namespace
`drake::automotive`).  A `std::string` is a `String`, `name.empty()` is
`name = ""`, and the contents of a string stream are the characters not yet
read. -/

namespace automotive

open InfiniteCircuitRoad

/-- The function `MakeChannelName` (lines 73-79). -/
def MakeChannelName (name : String) : String :=
  if name = "" then "DRIVING_COMMAND" else "DRIVING_COMMAND" ++ "_" ++ name

/-- What `std::getline` extracts from a stream that is not at its end: the
characters before the first `delim` (which is consumed and dropped) or up to
the end of the stream, and the characters left in the stream. -/
def getline_chars (delim : Char) : List Char → List Char × List Char
  | [] => ([], [])
  | c :: cs =>
    if c = delim then ([], cs)
    else (c :: (getline_chars delim cs).1, (getline_chars delim cs).2)

/-- The call `std::getline(stream, name, delim)`: on a stream at its end nothing
is extracted and the stream goes bad (`none`); otherwise the extracted `name`
and the rest of the stream. -/
def getline (stream : List Char) (delim : Char) : Option (List Char × List Char) :=
  match stream with
  | [] => none
  | _ :: _ => some (getline_chars delim stream)

/-- The loop `while (getline(name_stream, name, ','))` of `main` (lines
106-112), run for at most `fuel` calls of `getline`. -/
def names_loop : Nat → List Char → List String → Res (List String)
  | 0, _, _ => Res.outOfFuel
  | fuel + 1, name_stream, ego_car_names =>
    match getline name_stream ',' with
    | none => Res.ok ego_car_names
    | some (name, rest) =>
      if name = [] then names_loop fuel rest (ego_car_names ++ [""])
      else names_loop fuel rest (ego_car_names ++ [String.mk name])

/-- The part of `main` that turns `FLAGS_use_ego_car` and `FLAGS_ego_car_names`
into the vector `ego_car_names` (lines 100-113). -/
def main_ego_car_names (fuel : Nat) (FLAGS_use_ego_car : Bool)
    (FLAGS_ego_car_names : String) : Res (List String) :=
  if FLAGS_use_ego_car = true ∧ FLAGS_ego_car_names = "" then Res.ok [""]
  else if ¬ FLAGS_ego_car_names = "" then names_loop fuel FLAGS_ego_car_names.toList []
  else Res.ok []

/-- The loop of `main` adding the user-controlled cars when no road file is
given (lines 120-125): the `(name, channel_name)` arguments of each call of
`AddSimpleCarFromSdf`. -/
def main_simple_cars (ego_car_names : List String) : List (String × String) :=
  ego_car_names.map (fun name => (name, MakeChannelName name))

/-- The control types `EndlessRoadCar<double>::kNone`, `kUser` and `kIdm`. -/
inductive ControlType where
  | kNone
  | kUser
  | kIdm
  deriving DecidableEq

/-- The arguments of one call of `simulator->AddEndlessRoadCar` (the model file
`kSdfFile` apart). -/
structure EndlessRoadCarArgs where
  id : String
  longitudinal_start : ℚ
  lateral_offset : ℚ
  speed : ℚ
  control_type : ControlType
  channel_name : String
  deriving DecidableEq

/-- The loop of `main` adding the user-controlled cars on a road (lines
173-193), for `cycle_length = endless_road->lane()->cycle_length()`; `i / 2`
and `i % 2` are integer operations on the `size_t` counter. -/
def main_ego_cars (cycle_length : ℚ) (ego_car_names : List String) :
    List EndlessRoadCarArgs :=
  ego_car_names.enum.map (fun (p : Nat × String) =>
    let i : Nat := p.1
    let kConstantSpeed : ℚ := 10
    let kLateralOffsetUnit : ℚ := -2
    let longitudinal_start : ℚ :=
      cycle_length * ((1 * ((i / 2 : Nat) : ℚ) / (ego_car_names.length : ℚ)) + 1 / 2)
    let lateral_offset : ℚ := ((((i % 2 : Nat) : ℚ) * 2) - 1) * kLateralOffsetUnit
    let given_name : String := p.2
    let model_name : String := if given_name = "" then "User-" ++ toString i else given_name
    let channel_name : String := MakeChannelName given_name
    EndlessRoadCarArgs.mk model_name longitudinal_start lateral_offset kConstantSpeed
      ControlType.kUser channel_name)

/-- The loops of `main` adding the traffic cars on a road (lines 198-225); the
`int` counter `i` runs over `0 ≤ i < FLAGS_num_ado_car`. -/
def main_ado_cars (cycle_length : ℚ) (FLAGS_use_idm : Bool) (FLAGS_num_ado_car : Int) :
    List EndlessRoadCarArgs :=
  if FLAGS_use_idm then
    (List.range FLAGS_num_ado_car.toNat).map (fun (i : Nat) =>
      let kInitialSpeed : ℚ := 30
      let kLateralOffsetUnit : ℚ := 0
      let longitudinal_start : ℚ := cycle_length * (i : ℚ) / (FLAGS_num_ado_car : ℚ) / 2
      let lateral_offset : ℚ := kLateralOffsetUnit
      EndlessRoadCarArgs.mk ("IDM-" ++ toString i) longitudinal_start lateral_offset
        kInitialSpeed ControlType.kIdm "")
  else
    (List.range FLAGS_num_ado_car.toNat).map (fun (i : Nat) =>
      let kConstantSpeed : ℚ := 10
      let kLateralOffsetUnit : ℚ := -2
      let longitudinal_start : ℚ :=
        cycle_length * ((i / 2 : Nat) : ℚ) / (FLAGS_num_ado_car : ℚ)
      let lateral_offset : ℚ := ((((i % 2 : Nat) : Int) * 2 - 1 : Int) : ℚ) * kLateralOffsetUnit
      EndlessRoadCarArgs.mk ("CV-" ++ toString i) longitudinal_start lateral_offset
        kConstantSpeed ControlType.kNone "")

end automotive

namespace InfiniteCircuitRoad


/-! ## The `seen_records` map -/

theorem mapCount_mapSet (m : List (LaneEnd × Nat)) (k k' : LaneEnd) (v : Nat) :
    mapCount (mapSet m k v) k' = (decide (k = k') || mapCount m k') := by
  induction m with
  | nil => simp [mapSet, mapCount]
  | cons p rest ih =>
    obtain ⟨k0, v0⟩ := p
    by_cases h0 : k0 = k
    · subst h0
      by_cases h1 : k0 = k' <;> simp [mapSet, mapCount, h1]
    · by_cases h1 : k0 = k'
      · subst h1
        simp [mapSet, mapCount, h0]
      · simp [mapSet, mapCount, h0, h1, ih]

theorem mapGet_mapSet (m : List (LaneEnd × Nat)) (k k' : LaneEnd) (v : Nat) :
    mapGet (mapSet m k v) k' = if k = k' then v else mapGet m k' := by
  induction m with
  | nil => simp [mapSet, mapGet]
  | cons p rest ih =>
    obtain ⟨k0, v0⟩ := p
    by_cases h0 : k0 = k
    · subst h0
      by_cases h1 : k0 = k' <;> simp [mapSet, mapGet, h1]
    · by_cases h1 : k0 = k'
      · subst h1
        simp [mapSet, mapGet, h0, Ne.symm h0]
      · simp [mapSet, mapGet, h0, h1, ih]

/-! ## Measured record sequences -/

theorem Measured.append_one {src : SourceRoad} {a c : ℚ} {rs : List Record}
    (h : Measured src a rs c) (l : LaneId) (b : Bool) :
    Measured src a (rs ++ [Record.mk l c (c + src.length l) b]) (c + src.length l) := by
  induction rs generalizing a with
  | nil =>
    simp only [Measured] at h
    subst h
    simp [Measured]
  | cons r rest ih =>
    obtain ⟨h1, h2, h3⟩ := h
    exact ⟨h1, h2, ih h3⟩

theorem Measured.remeasure (src : SourceRoad) (rs : List Record) (a : ℚ) :
    Measured src a (remeasure src rs a).1 (remeasure src rs a).2 := by
  induction rs generalizing a with
  | nil => simp [InfiniteCircuitRoad.remeasure, Measured]
  | cons r rest ih =>
    simp only [InfiniteCircuitRoad.remeasure, Measured, true_and]
    exact ih _

theorem remeasure_length (src : SourceRoad) (rs : List Record) (a : ℚ) :
    (remeasure src rs a).1.length = rs.length := by
  induction rs generalizing a with
  | nil => simp [remeasure]
  | cons r rest ih => simp [remeasure, ih]

theorem Measured.head {src : SourceRoad} {a c : ℚ} {rs : List Record} {r : Record}
    (h : Measured src a rs c) (hr : rs.head? = some r) : r.start_circuit_s = a := by
  cases rs with
  | nil => simp at hr
  | cons x rest =>
    simp only [List.head?_cons, Option.some.injEq] at hr
    subst hr
    exact h.1

theorem Measured.chain {src : SourceRoad} {a c : ℚ} {rs : List Record}
    (h : Measured src a rs c) {i : Nat} {x y : Record}
    (hx : rs[i]? = some x) (hy : rs[i + 1]? = some y) :
    x.end_circuit_s = y.start_circuit_s := by
  induction rs generalizing a i with
  | nil => simp at hx
  | cons r rest ih =>
    obtain ⟨_, _, h3⟩ := h
    cases i with
    | zero =>
      simp only [List.getElem?_cons_zero, Option.some.injEq] at hx
      subst hx
      simp only [zero_add, List.getElem?_cons_succ] at hy
      cases rest with
      | nil => simp at hy
      | cons z rest2 =>
        simp only [List.getElem?_cons_zero, Option.some.injEq] at hy
        subst hy
        exact h3.1.symm
    | succ n =>
      simp only [List.getElem?_cons_succ] at hx hy
      exact ih h3 hx hy

theorem Measured.last {src : SourceRoad} {a c : ℚ} {rs : List Record} {r : Record}
    (h : Measured src a rs c) (hr : rs.getLast? = some r) : r.end_circuit_s = c := by
  induction rs generalizing a with
  | nil => simp at hr
  | cons x rest ih =>
    obtain ⟨_, _, h3⟩ := h
    cases rest with
    | nil =>
      simp only [List.getLast?_singleton, Option.some.injEq] at hr
      subst hr
      exact h3
    | cons z rest2 =>
      rw [List.getLast?_cons_cons] at hr
      exact ih h3 hr

theorem Measured.span {src : SourceRoad} {a c : ℚ} {rs : List Record}
    (h : Measured src a rs c) {i : Nat} {r : Record} (hr : rs[i]? = some r) :
    r.end_circuit_s - r.start_circuit_s = src.length r.lane := by
  induction rs generalizing a i with
  | nil => simp at hr
  | cons x rest ih =>
    obtain ⟨h1, h2, h3⟩ := h
    cases i with
    | zero =>
      simp only [List.getElem?_cons_zero, Option.some.injEq] at hr
      subst hr
      rw [h1, h2]; ring
    | succ n =>
      simp only [List.getElem?_cons_succ] at hr
      exact ih h3 hr

theorem Measured.total {src : SourceRoad} {a c : ℚ} {rs : List Record}
    (h : Measured src a rs c) : c = a + (rs.map (fun r => src.length r.lane)).sum := by
  induction rs generalizing a with
  | nil => simpa [Measured] using h.symm
  | cons x rest ih =>
    obtain ⟨_, h2, h3⟩ := h
    rw [ih h3, h2, List.map_cons, List.sum_cons]; ring

/-! ## The constructor's walk -/

theorem step_shape {src : SourceRoad} {path : List LaneId} {st st' : WalkState}
    (h : step src path st = Step.brk st' ∨ step src path st = Step.cont st') :
    st'.seen_records = mapSet st.seen_records st.current st.records_.length ∧
      st'.start_s = st.start_s + src.length st.current.lane ∧
      st'.records_ = st.records_ ++ [pushed src st] := by
  unfold step at h
  simp only at h
  repeat' split at h
  all_goals
    rcases h with h | h <;>
    first
      | (injection h with h; subst h; exact ⟨rfl, rfl, rfl⟩)
      | cases h

theorem step_brk_auto {src : SourceRoad} {st st' : WalkState}
    (h : step src [] st = Step.brk st') :
    mapCount st'.seen_records st'.current = true := by
  unfold step at h
  simp only [List.length_nil, gt_iff_lt, lt_self_iff_false, false_and, if_false] at h
  split at h
  · cases h
  · split at h
    · cases h
    · split at h
      · injection h with h; subst h; assumption
      · cases h

theorem step_inv {src : SourceRoad} {path : List LaneId} {st st' : WalkState}
    (hinv : WalkInv src st)
    (h : step src path st = Step.brk st' ∨ step src path st = Step.cont st') :
    WalkInv src st' := by
  obtain ⟨hs, hst, hr⟩ := step_shape h
  refine ⟨?_, ?_⟩
  · rw [hr, hst]
    exact hinv.1.append_one _ _
  · intro k hk
    rw [hs, mapCount_mapSet] at hk
    rw [hs, mapGet_mapSet, hr]
    simp only [List.length_append, List.length_singleton]
    by_cases hkc : st.current = k
    · simp [hkc]
    · simp only [hkc, if_false]
      simp only [hkc, decide_False, Bool.false_or] at hk
      exact Nat.lt_succ_of_lt (hinv.2 k hk)

theorem walk_inv {src : SourceRoad} {path : List LaneId} (fuel : Nat) {st st' : WalkState}
    (hinv : WalkInv src st) (h : walk src path fuel st = Res.ok st') :
    WalkInv src st' ∧ st'.records_ ≠ [] ∧
      (path = [] → mapCount st'.seen_records st'.current = true) := by
  induction fuel generalizing st with
  | zero => simp [walk] at h
  | succ n ih =>
    simp only [walk] at h
    split at h
    · rename_i st1 hstep
      injection h with h
      subst h
      refine ⟨step_inv hinv (Or.inl hstep), ?_, ?_⟩
      · rw [(step_shape (Or.inl hstep)).2.2]; simp
      · intro hp; subst hp; exact step_brk_auto hstep
    · rename_i st1 hstep
      exact ih (step_inv hinv (Or.inr hstep)) h
    · cases h

theorem WalkInv.init (src : SourceRoad) (start : LaneEnd) (path : List LaneId) :
    WalkInv src ⟨[], 0, start, path, []⟩ :=
  ⟨rfl, by intro k hk; simp [mapCount] at hk⟩

theorem walk_fuel_mono {src : SourceRoad} {path : List LaneId} {fuel fuel' : Nat}
    {st st' : WalkState} (h : walk src path fuel st = Res.ok st') (hle : fuel ≤ fuel') :
    walk src path fuel' st = Res.ok st' := by
  induction fuel generalizing st fuel' with
  | zero => simp [walk] at h
  | succ n ih =>
    cases fuel' with
    | zero => omega
    | succ m =>
      simp only [walk] at h ⊢
      split at h
      · exact h
      · exact ih h (by omega)
      · cases h

/-- Success of the constructor does not depend on the fuel: more fuel gives the
same lane. -/
theorem ctor_fuel_mono {src : SourceRoad} {start : LaneEnd} {path : List LaneId}
    {fuel fuel' : Nat} {lane : Lane}
    (h : Lane.ctor fuel src start path = Res.ok lane) (hle : fuel ≤ fuel') :
    Lane.ctor fuel' src start path = Res.ok lane := by
  unfold Lane.ctor at h ⊢
  split at h
  · rename_i st hw
    rw [walk_fuel_mono hw hle]
    exact h
  · cases h
  · cases h

/-- Every successfully constructed lane holds a non-empty record sequence laid
end to end from `0` to `cycle_length_`. -/
theorem ctor_measured {fuel : Nat} {src : SourceRoad} {start : LaneEnd} {path : List LaneId}
    {lane : Lane} (h : Lane.ctor fuel src start path = Res.ok lane) :
    Measured src 0 lane.records_ lane.cycle_length_ ∧ lane.records_ ≠ [] := by
  unfold Lane.ctor at h
  split at h
  · rename_i st hw
    obtain ⟨hinv, hne, hauto⟩ := walk_inv fuel (WalkInv.init src start path) hw
    split at h
    · rename_i hc
      injection h with h
      subst h
      refine ⟨Measured.remeasure _ _ _, ?_⟩
      have hp : path = [] := List.length_eq_zero.mp hc.1
      have hlt := hinv.2 _ (hauto hp)
      intro hnil
      have hlen := congrArg List.length hnil
      simp only [remeasure_length, List.length_drop, List.length_nil] at hlen
      omega
    · injection h with h
      subst h
      exact ⟨hinv.1, hne⟩
  · cases h
  · cases h

/-! ## The explicit-path walk -/

theorem pushed_laneEnd (src : SourceRoad) (st : WalkState) :
    (pushed src st).laneEnd = st.current := by
  rcases hc : st.current with ⟨l, e⟩
  cases e <;> simp [pushed, Record.laneEnd, hc]

theorem other_end_laneEnd (r : Record) :
    other_end r.laneEnd = if r.is_reversed then Which.kStart else Which.kFinish := by
  cases h : r.is_reversed <;> simp [other_end, Record.laneEnd, h]

theorem find_bi_spec (p : LaneId) (bs : List LaneEnd) (k bi : Nat)
    (h : find_bi p bs k = some bi) :
    ∃ j b, bi = k + j ∧ bs[j]? = some b ∧ b.lane = p ∧
      ∀ (j' : Nat) (e : LaneEnd), j' < j → bs[j']? = some e → e.lane ≠ p := by
  induction bs generalizing k with
  | nil => simp [find_bi] at h
  | cons b rest ih =>
    simp only [find_bi] at h
    split at h
    · rename_i hne
      obtain ⟨j, b', hj, hb, hl, hmin⟩ := ih (k + 1) h
      refine ⟨j + 1, b', by omega, by simpa using hb, hl, ?_⟩
      intro j' e hj' he
      cases j' with
      | zero =>
        simp only [List.getElem?_cons_zero, Option.some.injEq] at he
        subst he
        exact hne
      | succ n =>
        simp only [List.getElem?_cons_succ] at he
        exact hmin n e (by omega) he
    · rename_i heq
      injection h with h
      refine ⟨0, b, by omega, by simp, ?_, ?_⟩
      · simpa using heq
      · intro j' e hj'
        omega

theorem step_explicit_end {src : SourceRoad} {path : List LaneId} {st : WalkState}
    (hp : path ≠ []) (hit : st.path_it = []) :
    step src path st = Step.brk ⟨mapSet st.seen_records st.current st.records_.length,
      st.start_s + src.length st.current.lane, st.current, [],
      st.records_ ++ [pushed src st]⟩ := by
  have hlen : path.length > 0 := List.length_pos.mpr hp
  unfold step
  simp [hlen, hit, pushed]

theorem step_explicit_more {src : SourceRoad} {path : List LaneId} {st : WalkState}
    {p : LaneId} {ps : List LaneId} (hp : path ≠ []) (hit : st.path_it = p :: ps) :
    step src path st = Step.abort ∨
      ∃ bi nxt,
        find_bi p (src.GetOngoingBranches st.current.lane (other_end st.current)) 0 = some bi ∧
        (src.GetOngoingBranches st.current.lane (other_end st.current))[bi]? = some nxt ∧
        step src path st = Step.cont ⟨mapSet st.seen_records st.current st.records_.length,
          st.start_s + src.length st.current.lane, nxt, ps,
          st.records_ ++ [pushed src st]⟩ := by
  have hlen : path.length > 0 := List.length_pos.mpr hp
  unfold step
  simp only [hlen, hit, true_and, if_true]
  simp only [reduceCtorEq, if_false]
  split
  · exact Or.inl rfl
  · cases hf : find_bi p (src.GetOngoingBranches st.current.lane (other_end st.current)) 0 with
    | none => exact Or.inl rfl
    | some bi =>
      dsimp only
      cases hg : (src.GetOngoingBranches st.current.lane (other_end st.current))[bi]? with
      | none => exact Or.inl rfl
      | some nxt => exact Or.inr ⟨bi, nxt, rfl, hg, rfl⟩

theorem walk_explicit {src : SourceRoad} {path : List LaneId} (hp : path ≠ []) (fuel : Nat)
    {st st' : WalkState} (h : walk src path fuel st = Res.ok st') :
    ∃ tail, st'.records_ = st.records_ ++ tail ∧ ExplicitTail src st.current st.path_it tail := by
  induction fuel generalizing st with
  | zero => simp [walk] at h
  | succ n ih =>
    simp only [walk] at h
    cases hit : st.path_it with
    | nil =>
      rw [step_explicit_end hp hit] at h
      injection h with h
      subst h
      exact ⟨[pushed src st], rfl, ExplicitTail.last _ _ (pushed_laneEnd src st)⟩
    | cons p ps =>
      rcases step_explicit_more hp hit with hab | ⟨bi, nxt, hf, hg, hstep⟩
      · rw [hab] at h
        cases h
      · rw [hstep] at h
        obtain ⟨tail, htail, hex⟩ := ih h
        refine ⟨pushed src st :: tail, ?_, ?_⟩
        · rw [htail]; simp
        · exact ExplicitTail.next _ _ _ _ bi nxt _ (pushed_laneEnd src st) hf hg hex

/-- The explicit-path walk needs one pass per remaining path entry plus one:
with that much fuel it never runs out. -/
theorem walk_explicit_fuel {src : SourceRoad} {path : List LaneId} (hp : path ≠ [])
    (fuel : Nat) (st : WalkState) (hf : st.path_it.length < fuel) :
    walk src path fuel st ≠ Res.outOfFuel := by
  induction fuel generalizing st with
  | zero => omega
  | succ n ih =>
    simp only [walk]
    cases hit : st.path_it with
    | nil =>
      rw [step_explicit_end hp hit]
      simp
    | cons p ps =>
      rcases step_explicit_more hp hit with hab | ⟨bi, nxt, _, _, hstep⟩
      · rw [hab]
        simp
      · rw [hstep]
        apply ih
        rw [hit] at hf
        simp only [List.length_cons] at hf
        simp only
        omega

theorem ExplicitTail.length_eq {src : SourceRoad} {cur : LaneEnd} {path : List LaneId}
    {tail : List Record} (h : ExplicitTail src cur path tail) :
    tail.length = path.length + 1 := by
  induction h with
  | last cur r _ => rfl
  | next cur r p ps bi nxt tail _ _ _ _ ih => simp [ih]

theorem ExplicitTail.head_eq {src : SourceRoad} {cur : LaneEnd} {path : List LaneId}
    {tail : List Record} (h : ExplicitTail src cur path tail) :
    ∃ r, tail[0]? = some r ∧ r.laneEnd = cur := by
  cases h with
  | last _ r hr => exact ⟨r, List.getElem?_cons_zero, hr⟩
  | next _ r p ps bi nxt tail hr _ _ _ => exact ⟨r, List.getElem?_cons_zero, hr⟩

theorem ExplicitTail.lanes {src : SourceRoad} {cur : LaneEnd} {path : List LaneId}
    {tail : List Record} (h : ExplicitTail src cur path tail) (i : Nat) (p : LaneId)
    (hp : path[i]? = some p) : ∃ r, tail[i + 1]? = some r ∧ r.lane = p := by
  induction h generalizing i with
  | last cur r _ => simp at hp
  | next cur r q ps bi nxt tail _ hf hg hex ih =>
    cases i with
    | zero =>
      simp only [List.getElem?_cons_zero, Option.some.injEq] at hp
      subst hp
      obtain ⟨r1, hr1, he1⟩ := hex.head_eq
      obtain ⟨j, b, hj, hb, hl, _⟩ := find_bi_spec _ _ _ _ hf
      have hbn : b = nxt := by
        have : bi = j := by omega
        subst this
        rw [hb] at hg
        exact Option.some.inj hg
      refine ⟨r1, by simpa using hr1, ?_⟩
      have : r1.lane = nxt.lane := by rw [← he1]; rfl
      rw [this, ← hbn, hl]
    | succ n =>
      simp only [List.getElem?_cons_succ] at hp
      obtain ⟨r1, hr1, hl1⟩ := ih n hp
      exact ⟨r1, by simpa using hr1, hl1⟩

theorem ExplicitTail.links {src : SourceRoad} {cur : LaneEnd} {path : List LaneId}
    {tail : List Record} (h : ExplicitTail src cur path tail) (i : Nat) (a b : Record)
    (ha : tail[i]? = some a) (hb : tail[i + 1]? = some b) :
    ∃ bi,
      (src.GetOngoingBranches a.lane
        (if a.is_reversed then Which.kStart else Which.kFinish))[bi]? = some b.laneEnd ∧
      path[i]? = some b.lane ∧
      ∀ (j : Nat) (e : LaneEnd), j < bi →
        (src.GetOngoingBranches a.lane
          (if a.is_reversed then Which.kStart else Which.kFinish))[j]? = some e →
        path[i]? ≠ some e.lane := by
  induction h generalizing i with
  | last cur r _ =>
    cases i <;> simp at hb
  | next cur r q ps bi nxt tail hr hf hg hex ih =>
    cases i with
    | zero =>
      simp only [List.getElem?_cons_zero, Option.some.injEq] at ha
      subst ha
      simp only [zero_add, List.getElem?_cons_succ] at hb
      obtain ⟨r1, hr1, he1⟩ := hex.head_eq
      rw [hb] at hr1
      have hbr : b = r1 := Option.some.inj hr1
      subst hbr
      obtain ⟨j, e0, hj, he0, hl, hmin⟩ := find_bi_spec _ _ _ _ hf
      have hji : bi = j := by omega
      subst hji
      have hen : e0 = nxt := by
        rw [he0] at hg
        exact Option.some.inj hg
      subst hen
      have hfar : (if r.is_reversed then Which.kStart else Which.kFinish) = other_end cur := by
        rw [← hr, other_end_laneEnd]
      have hlane : r.lane = cur.lane := by rw [← hr]; rfl
      rw [hfar, hlane]
      refine ⟨bi, by rw [he1]; exact he0, ?_, ?_⟩
      · have : b.lane = e0.lane := by rw [← he1]; rfl
        simp [this, hl]
      · intro j e hjlt hje
        have := hmin j e hjlt hje
        simpa using fun hh => this hh.symm
    | succ n =>
      simp only [List.getElem?_cons_succ] at ha hb
      obtain ⟨bi', h1, h2, h3⟩ := ih n ha hb
      exact ⟨bi', h1, by simpa using h2, by simpa using h3⟩

/-- In explicit-path mode the constructor returns the walk's records untouched. -/
theorem ctor_explicit {fuel : Nat} {src : SourceRoad} {start : LaneEnd} {path : List LaneId}
    {lane : Lane} (hp : path ≠ []) (h : Lane.ctor fuel src start path = Res.ok lane) :
    ∃ st, walk src path fuel ⟨[], 0, start, path, []⟩ = Res.ok st ∧
      lane.records_ = st.records_ ∧ lane.cycle_length_ = st.start_s := by
  unfold Lane.ctor at h
  split at h
  · rename_i st hw
    have hlen : ¬ path.length = 0 := fun hz => hp (List.length_eq_zero.mp hz)
    simp only [hlen, false_and, if_false] at h
    injection h with h
    subst h
    exact ⟨st, hw, rfl, rfl⟩
  · cases h
  · cases h

/-! ## The two linear scans -/

theorem Measured.start_ge {src : SourceRoad} {a c : ℚ} {rs : List Record}
    (h : Measured src a rs c) (hlen : ∀ l, 0 ≤ src.length l) {i : Nat} {r : Record}
    (hr : rs[i]? = some r) : a ≤ r.start_circuit_s := by
  induction rs generalizing a i with
  | nil => simp at hr
  | cons x rest ih =>
    obtain ⟨h1, h2, h3⟩ := h
    cases i with
    | zero =>
      simp only [List.getElem?_cons_zero, Option.some.injEq] at hr
      subst hr
      exact le_of_eq h1.symm
    | succ n =>
      simp only [List.getElem?_cons_succ] at hr
      have := ih h3 hr
      have hx := hlen x.lane
      linarith

theorem Measured.le {src : SourceRoad} {a c : ℚ} {rs : List Record}
    (h : Measured src a rs c) (hlen : ∀ l, 0 ≤ src.length l) : a ≤ c := by
  induction rs generalizing a with
  | nil => exact le_of_eq h
  | cons x rest ih =>
    obtain ⟨_, h2, h3⟩ := h
    have := ih h3
    have hx := hlen x.lane
    linarith

theorem Measured.end_le {src : SourceRoad} {a c : ℚ} {rs : List Record}
    (h : Measured src a rs c) (hlen : ∀ l, 0 ≤ src.length l) {i : Nat} {r : Record}
    (hr : rs[i]? = some r) : r.end_circuit_s ≤ c := by
  induction rs generalizing a i with
  | nil => simp at hr
  | cons x rest ih =>
    obtain ⟨_, _, h3⟩ := h
    cases i with
    | zero =>
      simp only [List.getElem?_cons_zero, Option.some.injEq] at hr
      subst hr
      exact h3.le hlen
    | succ n =>
      simp only [List.getElem?_cons_succ] at hr
      exact ih h3 hr

/-- On records laid end to end from `a` to `c`, a coordinate `cs` in `[a, c)` is
located by both scans in the same record, the first one that ends beyond `cs`,
and that record's interval contains `cs`. -/
theorem scan_measured {src : SourceRoad} {a c : ℚ} {rs : List Record}
    (h : Measured src a rs c) (pos : LanePosition) (cs : ℚ) (k : Nat)
    (h0 : a ≤ cs) (h1 : cs < c) :
    ∃ i r, rs[i]? = some r ∧ r.start_circuit_s ≤ cs ∧ cs < r.end_circuit_s ∧
      GetPathIndex_loop cs rs k = some (k + i) ∧
      ProjectToSourceRoad_loop src pos cs rs =
        some (if r.is_reversed then
            (⟨r.lane, ⟨src.length r.lane - (cs - r.start_circuit_s), -pos.r, pos.h⟩⟩, true)
          else (⟨r.lane, ⟨cs - r.start_circuit_s, pos.r, pos.h⟩⟩, false)) := by
  induction rs generalizing a k with
  | nil =>
    simp only [Measured] at h
    subst h
    exact absurd h1 (not_lt.mpr h0)
  | cons x rest ih =>
    obtain ⟨hx1, hx2, hx3⟩ := h
    by_cases hlt : cs < x.end_circuit_s
    · refine ⟨0, x, List.getElem?_cons_zero, by rw [hx1]; exact h0, hlt, ?_, ?_⟩
      · simp [GetPathIndex_loop, hlt]
      · cases hrev : x.is_reversed <;> simp [ProjectToSourceRoad_loop, hlt, hrev]
    · obtain ⟨i, r, hr, hs, he, hg, hpr⟩ := ih hx3 (k + 1) (not_lt.mp hlt)
      refine ⟨i + 1, r, by simpa using hr, hs, he, ?_, ?_⟩
      · simp only [GetPathIndex_loop, hlt, if_false, hg]
        congr 1
        omega
      · simp only [ProjectToSourceRoad_loop, hlt, if_false]
        exact hpr

/-- With non-negative lane lengths, a coordinate inside the interval of record
`i` is located by both scans in record `i`. -/
theorem scan_at {src : SourceRoad} {a c : ℚ} {rs : List Record}
    (h : Measured src a rs c) (hlen : ∀ l, 0 ≤ src.length l) (pos : LanePosition) (cs : ℚ)
    (k i : Nat) (r : Record) (hr : rs[i]? = some r)
    (h0 : r.start_circuit_s ≤ cs) (h1 : cs < r.end_circuit_s) :
    GetPathIndex_loop cs rs k = some (k + i) ∧
      ProjectToSourceRoad_loop src pos cs rs =
        some (if r.is_reversed then
            (⟨r.lane, ⟨src.length r.lane - (cs - r.start_circuit_s), -pos.r, pos.h⟩⟩, true)
          else (⟨r.lane, ⟨cs - r.start_circuit_s, pos.r, pos.h⟩⟩, false)) := by
  induction rs generalizing a k i with
  | nil => simp at hr
  | cons x rest ih =>
    obtain ⟨hx1, hx2, hx3⟩ := h
    cases i with
    | zero =>
      simp only [List.getElem?_cons_zero, Option.some.injEq] at hr
      subst hr
      refine ⟨by simp [GetPathIndex_loop, h1], ?_⟩
      cases hrev : x.is_reversed <;> simp [ProjectToSourceRoad_loop, h1, hrev]
    | succ n =>
      simp only [List.getElem?_cons_succ] at hr
      have hge := hx3.start_ge hlen hr
      have hlt : ¬ cs < x.end_circuit_s := not_lt.mpr (le_trans hge h0)
      obtain ⟨hg, hpr⟩ := ih hx3 (k + 1) n hr
      refine ⟨?_, ?_⟩
      · simp only [GetPathIndex_loop, hlt, if_false, hg]
        congr 1
        omega
      · simp only [ProjectToSourceRoad_loop, hlt, if_false]
        exact hpr

/-- The projection of a constructed lane at a coordinate inside record `rec`
(non-negative source lane lengths). -/
theorem project_in_record {fuel : Nat} {src : SourceRoad} {start : LaneEnd}
    {path : List LaneId} {lane : Lane}
    (h : Lane.ctor fuel src start path = Res.ok lane) (hlen : ∀ l, 0 ≤ src.length l)
    {i : Nat} {rec : Record} (hi : lane.records_[i]? = some rec) (pos : LanePosition)
    (h0 : rec.start_circuit_s ≤ pos.s) (h1 : pos.s < rec.end_circuit_s) :
    lane.ProjectToSourceRoad src pos =
      some (if rec.is_reversed then
          (⟨rec.lane,
            ⟨src.length rec.lane - (pos.s - rec.start_circuit_s), -pos.r, pos.h⟩⟩, true)
        else (⟨rec.lane, ⟨pos.s - rec.start_circuit_s, pos.r, pos.h⟩⟩, false)) :=
  (scan_at (ctor_measured h).1 hlen pos pos.s 0 i rec hi h0 h1).2

/-! ## Construction: the record sequence -/

/-- C1: whenever construction of the circuit lane succeeds (any source graph,
any start lane-end, empty or non-empty path), the final records tile
`[0, cycle_length)`: the first record starts at `0`, each record ends where the
next one starts, and the last record ends at `cycle_length`. -/
theorem records_tile_cycle (fuel : Nat) (src : SourceRoad) (start : LaneEnd)
    (path : List LaneId) (lane : Lane)
    (h : Lane.ctor fuel src start path = Res.ok lane) :
    (∃ first, lane.records_.head? = some first ∧ first.start_circuit_s = 0) ∧
    (∀ (i : Nat) (a b : Record), lane.records_[i]? = some a → lane.records_[i + 1]? = some b →
      a.end_circuit_s = b.start_circuit_s) ∧
    (∃ last, lane.records_.getLast? = some last ∧
      last.end_circuit_s = lane.cycle_length_) := by
  obtain ⟨hm, hne⟩ := ctor_measured h
  refine ⟨?_, ?_, ?_⟩
  · cases hrs : lane.records_ with
    | nil => exact absurd hrs hne
    | cons r rest =>
      refine ⟨r, rfl, ?_⟩
      rw [hrs] at hm
      exact hm.1
  · intro i a b ha hb
    exact hm.chain ha hb
  · cases hl : lane.records_.getLast? with
    | none => exact absurd (List.getLast?_eq_none_iff.mp hl) hne
    | some r => exact ⟨r, rfl, hm.last hl⟩

/-- Witness for C1: auto-detection from the start of lane 3 walks 3, 2, 0, 1,
trims lane 3 and re-measures; the three remaining records tile `[0, 30)`. -/
theorem records_tile_cycle_witness :
    Lane.ctor 10 demoRoad ⟨3, Which.kStart⟩ [] =
        Res.ok ⟨[⟨2, 0, 10, false⟩, ⟨0, 10, 20, false⟩, ⟨1, 20, 30, false⟩], 30⟩ ∧
      ((∃ first, [Record.mk 2 0 10 false, ⟨0, 10, 20, false⟩, ⟨1, 20, 30, false⟩].head? =
          some first ∧ first.start_circuit_s = 0) ∧
        (∀ (i : Nat) (a b : Record),
          [Record.mk 2 0 10 false, ⟨0, 10, 20, false⟩, ⟨1, 20, 30, false⟩][i]? = some a →
          [Record.mk 2 0 10 false, ⟨0, 10, 20, false⟩, ⟨1, 20, 30, false⟩][i + 1]? = some b →
          a.end_circuit_s = b.start_circuit_s) ∧
        (∃ last, [Record.mk 2 0 10 false, ⟨0, 10, 20, false⟩, ⟨1, 20, 30, false⟩].getLast? =
          some last ∧ last.end_circuit_s = 30)) :=
  ⟨by decide!,
    records_tile_cycle 10 demoRoad ⟨3, Which.kStart⟩ []
      ⟨[⟨2, 0, 10, false⟩, ⟨0, 10, 20, false⟩, ⟨1, 20, 30, false⟩], 30⟩ (by decide!)⟩

/-- Exact-arithmetic lemma: when the offsets are accumulated without rounding,
every record of a constructed lane spans exactly the length of its source lane
and `cycle_length_` is the sum of the source-lane lengths over the final
(possibly trimmed) records.  The program accumulates the offsets in `double`,
where `(start + length) - start` need not be `length`. -/
theorem record_span_and_cycle_length (fuel : Nat) (src : SourceRoad) (start : LaneEnd)
    (path : List LaneId) (lane : Lane)
    (h : Lane.ctor fuel src start path = Res.ok lane) :
    (∀ (i : Nat) (r : Record), lane.records_[i]? = some r →
      r.end_circuit_s - r.start_circuit_s = src.length r.lane) ∧
    lane.cycle_length_ = (lane.records_.map (fun r => src.length r.lane)).sum := by
  obtain ⟨hm, _⟩ := ctor_measured h
  refine ⟨fun i r hr => hm.span hr, ?_⟩
  have := hm.total
  rwa [zero_add] at this

/-- Instance of the exact-arithmetic lemma: in the walk 3, 2, 0, 1 from the
start of lane 3 the trimmed lane 3 (length 7) adds nothing: `cycle_length_` is
`10 + 10 + 10`. -/
theorem record_span_and_cycle_length_witness :
    Lane.ctor 10 demoRoad ⟨3, Which.kStart⟩ [] =
        Res.ok ⟨[⟨2, 0, 10, false⟩, ⟨0, 10, 20, false⟩, ⟨1, 20, 30, false⟩], 30⟩ ∧
      ((∀ (i : Nat) (r : Record),
          [Record.mk 2 0 10 false, ⟨0, 10, 20, false⟩, ⟨1, 20, 30, false⟩][i]? = some r →
          r.end_circuit_s - r.start_circuit_s = demoRoad.length r.lane) ∧
        (30 : ℚ) = ([Record.mk 2 0 10 false, ⟨0, 10, 20, false⟩, ⟨1, 20, 30, false⟩].map
          (fun r => demoRoad.length r.lane)).sum) :=
  ⟨by decide!,
    record_span_and_cycle_length 10 demoRoad ⟨3, Which.kStart⟩ []
      ⟨[⟨2, 0, 10, false⟩, ⟨0, 10, 20, false⟩, ⟨1, 20, 30, false⟩], 30⟩ (by decide!)⟩

/-- C3: in explicit-path mode (non-empty path), whenever construction succeeds
there are exactly `path.size() + 1` records, record 0 refers to `start.lane`,
record `i + 1` refers to `path[i]`, and nothing is trimmed: the records and
`cycle_length` are the ones the walk left behind. -/
theorem explicit_path_records (fuel : Nat) (src : SourceRoad) (start : LaneEnd)
    (path : List LaneId) (lane : Lane) (hp : path ≠ [])
    (h : Lane.ctor fuel src start path = Res.ok lane) :
    lane.records_.length = path.length + 1 ∧
    (∃ r0, lane.records_[0]? = some r0 ∧ r0.lane = start.lane) ∧
    (∀ (i : Nat) (p : LaneId), path[i]? = some p →
      ∃ r, lane.records_[i + 1]? = some r ∧ r.lane = p) ∧
    (∃ st, walk src path fuel ⟨[], 0, start, path, []⟩ = Res.ok st ∧
      lane.records_ = st.records_ ∧ lane.cycle_length_ = st.start_s) := by
  obtain ⟨st, hw, hrec, hcl⟩ := ctor_explicit hp h
  obtain ⟨tail, htail, hex⟩ := walk_explicit hp fuel hw
  simp only [List.nil_append] at htail
  rw [hrec, htail]
  refine ⟨hex.length_eq, ?_, fun i p hip => hex.lanes i p hip, st, hw, htail.symm, hcl⟩
  obtain ⟨r0, hr0, he0⟩ := hex.head_eq
  have he : r0.laneEnd = start := he0
  exact ⟨r0, hr0, by rw [← he]; rfl⟩

/-- Witness for C3: from the start of lane 3 along the path 1, 3 the walk records
lane 3 forwards, lane 1 reversed and lane 3 reversed. -/
theorem explicit_path_records_witness :
    ([1, 3] : List LaneId) ≠ [] ∧
      Lane.ctor 3 demoRoad ⟨3, Which.kStart⟩ [1, 3] =
        Res.ok ⟨[⟨3, 0, 7, false⟩, ⟨1, 7, 17, true⟩, ⟨3, 17, 24, true⟩], 24⟩ ∧
      [Record.mk 3 0 7 false, ⟨1, 7, 17, true⟩, ⟨3, 17, 24, true⟩].length =
        ([1, 3] : List LaneId).length + 1 :=
  ⟨by decide, by decide!,
    (explicit_path_records 3 demoRoad ⟨3, Which.kStart⟩ [1, 3]
      ⟨[⟨3, 0, 7, false⟩, ⟨1, 7, 17, true⟩, ⟨3, 17, 24, true⟩], 24⟩
      (by decide) (by decide!)).1⟩

/-- C4: in explicit-path mode each consecutive pair of records is a real branch
connection: the lane-end entered by record `i + 1` sits at some index `bi` of
the ongoing branches at the far end of record `i`, its lane is `path[i]`, and no
branch at a lower index has lane `path[i]`. -/
theorem explicit_path_links (fuel : Nat) (src : SourceRoad) (start : LaneEnd)
    (path : List LaneId) (lane : Lane) (hp : path ≠ [])
    (h : Lane.ctor fuel src start path = Res.ok lane)
    (i : Nat) (a b : Record)
    (ha : lane.records_[i]? = some a) (hb : lane.records_[i + 1]? = some b) :
    ∃ bi,
      (src.GetOngoingBranches a.lane
        (if a.is_reversed then Which.kStart else Which.kFinish))[bi]? = some b.laneEnd ∧
      path[i]? = some b.lane ∧
      ∀ (j : Nat) (e : LaneEnd), j < bi →
        (src.GetOngoingBranches a.lane
          (if a.is_reversed then Which.kStart else Which.kFinish))[j]? = some e →
        path[i]? ≠ some e.lane := by
  obtain ⟨st, hw, hrec, _⟩ := ctor_explicit hp h
  obtain ⟨tail, htail, hex⟩ := walk_explicit hp fuel hw
  simp only [List.nil_append] at htail
  rw [hrec, htail] at ha hb
  exact hex.links i a b ha hb

/-- Witness for C4: along the path 1, 3 from the start of lane 3, the second
record enters lane 1 at its finish end, which is branch 1 (after the branch to
lane 2) at the finish end of lane 3. -/
theorem explicit_path_links_witness :
    ∃ bi,
      (demoRoad.GetOngoingBranches (Record.mk 3 0 7 false).lane
        (if (Record.mk 3 0 7 false).is_reversed then Which.kStart else Which.kFinish))[bi]? =
          some (Record.mk 1 7 17 true).laneEnd ∧
      ([1, 3] : List LaneId)[0]? = some (Record.mk 1 7 17 true).lane ∧
      ∀ (j : Nat) (e : LaneEnd), j < bi →
        (demoRoad.GetOngoingBranches (Record.mk 3 0 7 false).lane
          (if (Record.mk 3 0 7 false).is_reversed then Which.kStart else Which.kFinish))[j]? =
            some e →
        ([1, 3] : List LaneId)[0]? ≠ some e.lane :=
  explicit_path_links 3 demoRoad ⟨3, Which.kStart⟩ [1, 3]
    ⟨[⟨3, 0, 7, false⟩, ⟨1, 7, 17, true⟩, ⟨3, 17, 24, true⟩], 24⟩
    (by decide) (by decide!) 0 ⟨3, 0, 7, false⟩ ⟨1, 7, 17, true⟩ (by decide!) (by decide!)

/-! ## Queries on a constructed lane -/

theorem demoRoad_length_nonneg : ∀ l, 0 ≤ demoRoad.length l := by
  intro l
  simp only [demoRoad]
  split <;> norm_num

/-- C5: for every `s` in `[0, cycle_length)` of a successfully constructed lane,
`ProjectToSourceRoad` succeeds and returns the source lane of a record `i` with
`start_circuit_s ≤ s < end_circuit_s`, and `GetPathIndex s` returns the same
`i`; with non-negative lane lengths no other record's interval contains `s`. -/
theorem project_agrees_with_path_index (fuel : Nat) (src : SourceRoad) (start : LaneEnd)
    (path : List LaneId) (lane : Lane)
    (h : Lane.ctor fuel src start path = Res.ok lane)
    (s r ht : ℚ) (h0 : 0 ≤ s) (h1 : s < lane.cycle_length_) :
    ∃ i rec, lane.records_[i]? = some rec ∧
      rec.start_circuit_s ≤ s ∧ s < rec.end_circuit_s ∧
      lane.GetPathIndex s = some i ∧
      (∃ rp rev, lane.ProjectToSourceRoad src ⟨s, r, ht⟩ = some (rp, rev) ∧
        rp.lane = rec.lane) ∧
      ((∀ l, 0 ≤ src.length l) → ∀ (j : Nat) (other : Record),
        lane.records_[j]? = some other →
        other.start_circuit_s ≤ s → s < other.end_circuit_s → j = i) := by
  obtain ⟨hm, _⟩ := ctor_measured h
  obtain ⟨i, rec, hi, hs, he, hg, hpr⟩ := scan_measured hm ⟨s, r, ht⟩ s 0 h0 h1
  rw [zero_add] at hg
  refine ⟨i, rec, hi, hs, he, hg, ?_, ?_⟩
  · cases hrev : rec.is_reversed
    · exact ⟨_, false, by simpa [hrev] using hpr, rfl⟩
    · exact ⟨_, true, by simpa [hrev] using hpr, rfl⟩
  · intro hlen j other hj hs' he'
    have hg' := (scan_at hm hlen ⟨s, r, ht⟩ s 0 j other hj hs' he').1
    rw [zero_add, hg] at hg'
    exact (Option.some.inj hg').symm

/-- Witness for C5: on `demoLane` the coordinate `10` lies in record 1. -/
theorem project_agrees_with_path_index_witness :
    ∃ i rec, demoLane.records_[i]? = some rec ∧
      rec.start_circuit_s ≤ 10 ∧ (10 : ℚ) < rec.end_circuit_s ∧
      demoLane.GetPathIndex 10 = some i ∧
      (∃ rp rev, demoLane.ProjectToSourceRoad demoRoad ⟨10, 1, 0⟩ = some (rp, rev) ∧
        rp.lane = rec.lane) ∧
      ((∀ l, 0 ≤ demoRoad.length l) → ∀ (j : Nat) (other : Record),
        demoLane.records_[j]? = some other →
        other.start_circuit_s ≤ 10 → (10 : ℚ) < other.end_circuit_s → j = i) :=
  project_agrees_with_path_index 3 demoRoad ⟨3, Which.kStart⟩ [1, 3] demoLane
    (by decide!) 10 1 0 (by decide!) (by decide!)

/-- C6: for a circuit position `(s, r, h)` inside a record with start offset `a`
and source lane of length `L`, `ProjectToSourceRoad` returns
`((s - a, r, h), false)` on that source lane when the record is not reversed and
`((L - (s - a), -r, h), true)` when it is; `h` is passed through unchanged. -/
theorem project_to_source_formula (fuel : Nat) (src : SourceRoad) (start : LaneEnd)
    (path : List LaneId) (lane : Lane)
    (h : Lane.ctor fuel src start path = Res.ok lane) (hlen : ∀ l, 0 ≤ src.length l)
    (i : Nat) (rec : Record) (hi : lane.records_[i]? = some rec)
    (s r ht : ℚ) (h0 : rec.start_circuit_s ≤ s) (h1 : s < rec.end_circuit_s) :
    lane.ProjectToSourceRoad src ⟨s, r, ht⟩ =
      some (if rec.is_reversed then
          (⟨rec.lane, ⟨src.length rec.lane - (s - rec.start_circuit_s), -r, ht⟩⟩, true)
        else (⟨rec.lane, ⟨s - rec.start_circuit_s, r, ht⟩⟩, false)) :=
  project_in_record h hlen hi ⟨s, r, ht⟩ h0 h1

/-- Witness for C6: position `(10, 1, 5)` on `demoLane` lies 3 into the reversed
record of lane 1 (length 10) and projects to `(7, -1, 5)`, reversed. -/
theorem project_to_source_formula_witness :
    demoLane.ProjectToSourceRoad demoRoad ⟨10, 1, 5⟩ =
      some (if (Record.mk 1 7 17 true).is_reversed then
          (⟨(Record.mk 1 7 17 true).lane,
            ⟨demoRoad.length (Record.mk 1 7 17 true).lane -
              (10 - (Record.mk 1 7 17 true).start_circuit_s), -1, 5⟩⟩, true)
        else (⟨(Record.mk 1 7 17 true).lane,
          ⟨10 - (Record.mk 1 7 17 true).start_circuit_s, 1, 5⟩⟩, false)) :=
  project_to_source_formula 3 demoRoad ⟨3, Which.kStart⟩ [1, 3] demoLane
    (by decide!) demoRoad_length_nonneg 1 ⟨1, 7, 17, true⟩ (by decide!) 10 1 5
    (by decide!) (by decide!)

/-- C7: for `s` inside a record with start offset `a` and source lane length
`L`, `lane_bounds(s)` and `driveable_bounds(s)` are the source lane's bounds at
the projected `s` (`s - a`) when the record is not reversed, and
`(-r_max, -r_min)` of the source bounds at `L - (s - a)` when it is; source
bounds `[-2, 3]` on a reversed record are reported as `[-3, 2]`, and
`r_min ≤ r_max` carries over from the source bounds to the reported ones. -/
theorem bounds_follow_reversal (fuel : Nat) (src : SourceRoad) (start : LaneEnd)
    (path : List LaneId) (lane : Lane)
    (h : Lane.ctor fuel src start path = Res.ok lane) (hlen : ∀ l, 0 ≤ src.length l)
    (i : Nat) (rec : Record) (hi : lane.records_[i]? = some rec)
    (s : ℚ) (h0 : rec.start_circuit_s ≤ s) (h1 : s < rec.end_circuit_s) :
    lane.do_lane_bounds src s =
      some (if rec.is_reversed then
          RBounds.mk
            (-(src.lane_bounds rec.lane
              (src.length rec.lane - (s - rec.start_circuit_s))).r_max)
            (-(src.lane_bounds rec.lane
              (src.length rec.lane - (s - rec.start_circuit_s))).r_min)
        else src.lane_bounds rec.lane (s - rec.start_circuit_s)) ∧
    lane.do_driveable_bounds src s =
      some (if rec.is_reversed then
          RBounds.mk
            (-(src.driveable_bounds rec.lane
              (src.length rec.lane - (s - rec.start_circuit_s))).r_max)
            (-(src.driveable_bounds rec.lane
              (src.length rec.lane - (s - rec.start_circuit_s))).r_min)
        else src.driveable_bounds rec.lane (s - rec.start_circuit_s)) ∧
    (rec.is_reversed = true →
      src.lane_bounds rec.lane (src.length rec.lane - (s - rec.start_circuit_s)) =
        RBounds.mk (-2) 3 →
      lane.do_lane_bounds src s = some (RBounds.mk (-3) 2)) ∧
    (∀ b, lane.do_lane_bounds src s = some b →
      (src.lane_bounds rec.lane
          (if rec.is_reversed then src.length rec.lane - (s - rec.start_circuit_s)
            else s - rec.start_circuit_s)).r_min ≤
        (src.lane_bounds rec.lane
          (if rec.is_reversed then src.length rec.lane - (s - rec.start_circuit_s)
            else s - rec.start_circuit_s)).r_max →
      b.r_min ≤ b.r_max) ∧
    (∀ b, lane.do_driveable_bounds src s = some b →
      (src.driveable_bounds rec.lane
          (if rec.is_reversed then src.length rec.lane - (s - rec.start_circuit_s)
            else s - rec.start_circuit_s)).r_min ≤
        (src.driveable_bounds rec.lane
          (if rec.is_reversed then src.length rec.lane - (s - rec.start_circuit_s)
            else s - rec.start_circuit_s)).r_max →
      b.r_min ≤ b.r_max) := by
  have hp := project_in_record h hlen hi ⟨s, 0, 0⟩ h0 h1
  have hl : lane.do_lane_bounds src s =
      some (if rec.is_reversed then
          RBounds.mk
            (-(src.lane_bounds rec.lane
              (src.length rec.lane - (s - rec.start_circuit_s))).r_max)
            (-(src.lane_bounds rec.lane
              (src.length rec.lane - (s - rec.start_circuit_s))).r_min)
        else src.lane_bounds rec.lane (s - rec.start_circuit_s)) := by
    unfold Lane.do_lane_bounds
    rw [hp]
    cases rec.is_reversed <;> simp
  have hd : lane.do_driveable_bounds src s =
      some (if rec.is_reversed then
          RBounds.mk
            (-(src.driveable_bounds rec.lane
              (src.length rec.lane - (s - rec.start_circuit_s))).r_max)
            (-(src.driveable_bounds rec.lane
              (src.length rec.lane - (s - rec.start_circuit_s))).r_min)
        else src.driveable_bounds rec.lane (s - rec.start_circuit_s)) := by
    unfold Lane.do_driveable_bounds
    rw [hp]
    cases rec.is_reversed <;> simp
  refine ⟨hl, hd, ?_, ?_, ?_⟩
  · intro hrev hb
    rw [hl, hrev, if_pos rfl, hb]
    norm_num
  · intro b hb
    rw [hl] at hb
    cases hrev : rec.is_reversed
    · rw [hrev] at hb
      simp only [Bool.false_eq_true, if_false, Option.some.injEq] at hb
      subst hb
      simp
    · rw [hrev] at hb
      simp only [if_true, Option.some.injEq] at hb
      subst hb
      simp
  · intro b hb
    rw [hd] at hb
    cases hrev : rec.is_reversed
    · rw [hrev] at hb
      simp only [Bool.false_eq_true, if_false, Option.some.injEq] at hb
      subst hb
      simp
    · rw [hrev] at hb
      simp only [if_true, Option.some.injEq] at hb
      subst hb
      simp

/-- Witness for C7: at `s = 10` on `demoLane` (reversed record of lane 1, whose
lane bounds are `[-2, 3]`) the reported lane bounds are `[-3, 2]`. -/
theorem bounds_follow_reversal_witness :
    demoLane.do_lane_bounds demoRoad 10 = some (RBounds.mk (-3) 2) :=
  (bounds_follow_reversal 3 demoRoad ⟨3, Which.kStart⟩ [1, 3] demoLane
    (by decide!) demoRoad_length_nonneg 1 ⟨1, 7, 17, true⟩ (by decide!) 10
    (by decide!) (by decide!)).2.2.1 rfl (by decide!)

/-- C8 (reversal identity): for a circuit position `(s, r, h)` inside a reversed
record with start offset `a` and source lane length `L`, the circuit lane's
geo-position is exactly the source lane's geo-position at `(L - (s - a), -r, h)`;
inside a non-reversed record it is the source lane's geo-position at
`(s - a, r, h)`.  Nothing else is applied to the result. -/
theorem geo_position_reversal (fuel : Nat) (src : SourceRoad) (start : LaneEnd)
    (path : List LaneId) (lane : Lane)
    (h : Lane.ctor fuel src start path = Res.ok lane) (hlen : ∀ l, 0 ≤ src.length l)
    (i : Nat) (rec : Record) (hi : lane.records_[i]? = some rec)
    (s r ht : ℚ) (h0 : rec.start_circuit_s ≤ s) (h1 : s < rec.end_circuit_s) :
    lane.DoToGeoPosition src ⟨s, r, ht⟩ =
      some (if rec.is_reversed then
          src.ToGeoPosition rec.lane
            ⟨src.length rec.lane - (s - rec.start_circuit_s), -r, ht⟩
        else src.ToGeoPosition rec.lane ⟨s - rec.start_circuit_s, r, ht⟩) := by
  unfold Lane.DoToGeoPosition
  rw [project_in_record h hlen hi ⟨s, r, ht⟩ h0 h1]
  cases rec.is_reversed <;> simp

/-- Witness for C8: position `(10, 1, 5)` on `demoLane` is lane 1 of `demoRoad`
at `(7, -1, 5)`, whose geo-position there is `(7, 0, 5)`. -/
theorem geo_position_reversal_witness :
    demoLane.DoToGeoPosition demoRoad ⟨10, 1, 5⟩ =
      some (if (Record.mk 1 7 17 true).is_reversed then
          demoRoad.ToGeoPosition (Record.mk 1 7 17 true).lane
            ⟨demoRoad.length (Record.mk 1 7 17 true).lane -
              (10 - (Record.mk 1 7 17 true).start_circuit_s), -1, 5⟩
        else demoRoad.ToGeoPosition (Record.mk 1 7 17 true).lane
          ⟨10 - (Record.mk 1 7 17 true).start_circuit_s, 1, 5⟩) :=
  geo_position_reversal 3 demoRoad ⟨3, Which.kStart⟩ [1, 3] demoLane
    (by decide!) demoRoad_length_nonneg 1 ⟨1, 7, 17, true⟩ (by decide!) 10 1 5
    (by decide!) (by decide!)

/-- C9 (orientation identity): for a circuit position inside a reversed record,
the reported orientation has `roll = -source_roll`, `pitch = -source_pitch` and
`yaw = source_yaw + M_PI` (so it is congruent to `source_yaw + M_PI` modulo
`2 * M_PI`), the source orientation being taken at the projected position
`(L - (s - a), -r, h)`; inside a non-reversed record the source orientation at
`(s - a, r, h)` is returned unchanged. -/
theorem orientation_reversal (M_PI : ℚ) (fuel : Nat) (src : SourceRoad) (start : LaneEnd)
    (path : List LaneId) (lane : Lane)
    (h : Lane.ctor fuel src start path = Res.ok lane) (hlen : ∀ l, 0 ≤ src.length l)
    (i : Nat) (rec : Record) (hi : lane.records_[i]? = some rec)
    (s r ht : ℚ) (h0 : rec.start_circuit_s ≤ s) (h1 : s < rec.end_circuit_s) :
    (rec.is_reversed = true →
      ∃ o, lane.DoGetOrientation M_PI src ⟨s, r, ht⟩ = some o ∧
        o.roll = -(src.GetOrientation rec.lane
          ⟨src.length rec.lane - (s - rec.start_circuit_s), -r, ht⟩).roll ∧
        o.pitch = -(src.GetOrientation rec.lane
          ⟨src.length rec.lane - (s - rec.start_circuit_s), -r, ht⟩).pitch ∧
        o.yaw = (src.GetOrientation rec.lane
          ⟨src.length rec.lane - (s - rec.start_circuit_s), -r, ht⟩).yaw + M_PI ∧
        ∃ k : ℤ, o.yaw - ((src.GetOrientation rec.lane
          ⟨src.length rec.lane - (s - rec.start_circuit_s), -r, ht⟩).yaw + M_PI) =
            k * (2 * M_PI)) ∧
    (rec.is_reversed = false →
      lane.DoGetOrientation M_PI src ⟨s, r, ht⟩ =
        some (src.GetOrientation rec.lane ⟨s - rec.start_circuit_s, r, ht⟩)) := by
  have hp := project_in_record h hlen hi ⟨s, r, ht⟩ h0 h1
  constructor
  · intro hrev
    rw [hrev] at hp
    refine ⟨_, by unfold Lane.DoGetOrientation; rw [hp], rfl, rfl, rfl, 0, ?_⟩
    simp
  · intro hrev
    rw [hrev] at hp
    unfold Lane.DoGetOrientation
    rw [hp]
    simp

/-- Witness for C9: with `M_PI` taken as `22 / 7`, position `(10, 1, 5)` on
`demoLane` (reversed record of lane 1, source orientation `(5, -1, 7)` at the
projected position) has orientation `(-5, 1, 7 + 22 / 7)`. -/
theorem orientation_reversal_witness :
    ∃ o, demoLane.DoGetOrientation (22 / 7) demoRoad ⟨10, 1, 5⟩ = some o ∧
      o.roll = -(demoRoad.GetOrientation (Record.mk 1 7 17 true).lane
        ⟨demoRoad.length (Record.mk 1 7 17 true).lane -
          (10 - (Record.mk 1 7 17 true).start_circuit_s), -1, 5⟩).roll ∧
      o.pitch = -(demoRoad.GetOrientation (Record.mk 1 7 17 true).lane
        ⟨demoRoad.length (Record.mk 1 7 17 true).lane -
          (10 - (Record.mk 1 7 17 true).start_circuit_s), -1, 5⟩).pitch ∧
      o.yaw = (demoRoad.GetOrientation (Record.mk 1 7 17 true).lane
        ⟨demoRoad.length (Record.mk 1 7 17 true).lane -
          (10 - (Record.mk 1 7 17 true).start_circuit_s), -1, 5⟩).yaw + 22 / 7 ∧
      ∃ k : ℤ, o.yaw - ((demoRoad.GetOrientation (Record.mk 1 7 17 true).lane
        ⟨demoRoad.length (Record.mk 1 7 17 true).lane -
          (10 - (Record.mk 1 7 17 true).start_circuit_s), -1, 5⟩).yaw + 22 / 7) =
            k * (2 * (22 / 7)) :=
  (orientation_reversal (22 / 7) 3 demoRoad ⟨3, Which.kStart⟩ [1, 3] demoLane
    (by decide!) demoRoad_length_nonneg 1 ⟨1, 7, 17, true⟩ (by decide!) 10 1 5
    (by decide!) (by decide!)).1 rfl

/-- C10: for a circuit position inside a reversed record and a velocity
`(sigma_v, rho_v, eta_v)`, `EvalMotionDerivatives` is the source lane's
derivatives at the projected position `(L - (s - a), -r, h)` for the velocity
`(-sigma_v, -rho_v, eta_v)`, with the `s`- and `r`-components of the result
negated and the `h`-component unchanged; inside a non-reversed record it is the
source lane's derivatives at `(s - a, r, h)` for the unchanged velocity. -/
theorem motion_derivatives_reversal (fuel : Nat) (src : SourceRoad) (start : LaneEnd)
    (path : List LaneId) (lane : Lane)
    (h : Lane.ctor fuel src start path = Res.ok lane) (hlen : ∀ l, 0 ≤ src.length l)
    (i : Nat) (rec : Record) (hi : lane.records_[i]? = some rec)
    (s r ht : ℚ) (velocity : IsoLaneVelocity)
    (h0 : rec.start_circuit_s ≤ s) (h1 : s < rec.end_circuit_s) :
    lane.DoEvalMotionDerivatives src ⟨s, r, ht⟩ velocity =
      some (if rec.is_reversed then
          LanePosition.mk
            (-(src.EvalMotionDerivatives rec.lane
              ⟨src.length rec.lane - (s - rec.start_circuit_s), -r, ht⟩
              ⟨-velocity.sigma_v, -velocity.rho_v, velocity.eta_v⟩).s)
            (-(src.EvalMotionDerivatives rec.lane
              ⟨src.length rec.lane - (s - rec.start_circuit_s), -r, ht⟩
              ⟨-velocity.sigma_v, -velocity.rho_v, velocity.eta_v⟩).r)
            (src.EvalMotionDerivatives rec.lane
              ⟨src.length rec.lane - (s - rec.start_circuit_s), -r, ht⟩
              ⟨-velocity.sigma_v, -velocity.rho_v, velocity.eta_v⟩).h
        else src.EvalMotionDerivatives rec.lane ⟨s - rec.start_circuit_s, r, ht⟩
          velocity) := by
  unfold Lane.DoEvalMotionDerivatives
  rw [project_in_record h hlen hi ⟨s, r, ht⟩ h0 h1]
  cases rec.is_reversed <;> simp

/-- Witness for C10: position `(10, 1, 5)` on `demoLane` with velocity
`(2, 3, 4)`: the source derivatives `(-2 + -1, -3, 4)` come back as `(3, 3, 4)`. -/
theorem motion_derivatives_reversal_witness :
    demoLane.DoEvalMotionDerivatives demoRoad ⟨10, 1, 5⟩ ⟨2, 3, 4⟩ =
      some (if (Record.mk 1 7 17 true).is_reversed then
          LanePosition.mk
            (-(demoRoad.EvalMotionDerivatives (Record.mk 1 7 17 true).lane
              ⟨demoRoad.length (Record.mk 1 7 17 true).lane -
                (10 - (Record.mk 1 7 17 true).start_circuit_s), -1, 5⟩
              ⟨-(IsoLaneVelocity.mk 2 3 4).sigma_v, -(IsoLaneVelocity.mk 2 3 4).rho_v,
                (IsoLaneVelocity.mk 2 3 4).eta_v⟩).s)
            (-(demoRoad.EvalMotionDerivatives (Record.mk 1 7 17 true).lane
              ⟨demoRoad.length (Record.mk 1 7 17 true).lane -
                (10 - (Record.mk 1 7 17 true).start_circuit_s), -1, 5⟩
              ⟨-(IsoLaneVelocity.mk 2 3 4).sigma_v, -(IsoLaneVelocity.mk 2 3 4).rho_v,
                (IsoLaneVelocity.mk 2 3 4).eta_v⟩).r)
            (demoRoad.EvalMotionDerivatives (Record.mk 1 7 17 true).lane
              ⟨demoRoad.length (Record.mk 1 7 17 true).lane -
                (10 - (Record.mk 1 7 17 true).start_circuit_s), -1, 5⟩
              ⟨-(IsoLaneVelocity.mk 2 3 4).sigma_v, -(IsoLaneVelocity.mk 2 3 4).rho_v,
                (IsoLaneVelocity.mk 2 3 4).eta_v⟩).h
        else demoRoad.EvalMotionDerivatives (Record.mk 1 7 17 true).lane
          ⟨10 - (Record.mk 1 7 17 true).start_circuit_s, 1, 5⟩ ⟨2, 3, 4⟩) :=
  motion_derivatives_reversal 3 demoRoad ⟨3, Which.kStart⟩ [1, 3] demoLane
    (by decide!) demoRoad_length_nonneg 1 ⟨1, 7, 17, true⟩ (by decide!) 10 1 5 ⟨2, 3, 4⟩
    (by decide!) (by decide!)

/-! ## Failure of the explicit-path walk -/

theorem find_bi_none (p : LaneId) (bs : List LaneEnd) (k : Nat) :
    find_bi p bs k = none ↔ ∀ b ∈ bs, b.lane ≠ p := by
  induction bs generalizing k with
  | nil => simp [find_bi]
  | cons b rest ih =>
    by_cases hb : b.lane = p
    · simp [find_bi, hb]
    · simp [find_bi, hb, ih]

theorem find_bi_find (p : LaneId) (bs : List LaneEnd) (k bi : Nat)
    (h : find_bi p bs k = some bi) :
    ∃ nxt, bs[bi - k]? = some nxt ∧ k ≤ bi ∧
      bs.find? (fun b => decide (b.lane = p)) = some nxt := by
  induction bs generalizing k with
  | nil => simp [find_bi] at h
  | cons b rest ih =>
    by_cases hb : b.lane = p
    · simp only [find_bi, hb, ne_eq, not_true_eq_false, if_false, Option.some.injEq] at h
      subst h
      exact ⟨b, by simp, le_refl _, by simp [hb]⟩
    · simp only [find_bi, hb, ne_eq, not_false_eq_true, if_true] at h
      obtain ⟨nxt, h1, h2, h3⟩ := ih (k + 1) h
      refine ⟨nxt, ?_, by omega, by simp [hb, h3]⟩
      have : bi - k = (bi - (k + 1)) + 1 := by omega
      rw [this, List.getElem?_cons_succ]
      exact h1

theorem traversed_cons_succ (src : SourceRoad) (cur : LaneEnd) (p : LaneId)
    (ps : List LaneId) (i : Nat) :
    traversed src cur (p :: ps) (i + 1) =
      match (farBranches src cur).find? (fun b => decide (b.lane = p)) with
      | none => none
      | some nxt => traversed src nxt ps i := by
  induction i with
  | zero =>
    simp only [traversed, List.getElem?_cons_zero]
    cases (farBranches src cur).find? (fun b => decide (b.lane = p)) <;> rfl
  | succ n ih =>
    rw [traversed, ih]
    simp only [List.getElem?_cons_succ]
    cases (farBranches src cur).find? (fun b => decide (b.lane = p)) with
    | none => rfl
    | some nxt => simp only [traversed]


theorem step_explicit_cases {src : SourceRoad} {path : List LaneId} {st : WalkState}
    {p : LaneId} {ps : List LaneId} (hp : path ≠ []) (hit : st.path_it = p :: ps) :
    (find_bi p (farBranches src st.current) 0 = none ∧ step src path st = Step.abort) ∨
      ∃ bi nxt,
        find_bi p (farBranches src st.current) 0 = some bi ∧
        (farBranches src st.current)[bi]? = some nxt ∧
        step src path st = Step.cont ⟨mapSet st.seen_records st.current st.records_.length,
          st.start_s + src.length st.current.lane, nxt, ps,
          st.records_ ++ [pushed src st]⟩ := by
  cases hf : find_bi p (farBranches src st.current) 0 with
  | none =>
    left
    refine ⟨rfl, ?_⟩
    rcases @step_explicit_more src path st p ps hp hit with hab | ⟨bi, nxt, hf', _, _⟩
    · exact hab
    · rw [farBranches] at hf
      rw [hf] at hf'
      cases hf'
  | some bi =>
    right
    rcases @step_explicit_more src path st p ps hp hit with hab | ⟨bi', nxt, hf', hg, hstep⟩
    · exfalso
      obtain ⟨nxt, hn, _, _⟩ := find_bi_find _ _ _ _ hf
      have hlen : path.length > 0 := List.length_pos.mpr hp
      have hne : (farBranches src st.current).length > 0 := by
        cases hb : farBranches src st.current with
        | nil => rw [hb] at hn; simp at hn
        | cons b rest => simp
      simp only [Nat.sub_zero] at hn
      unfold step at hab
      simp only [hlen, hit, true_and, if_true, reduceCtorEq, if_false] at hab
      rw [farBranches] at hne hf hn
      simp only [hne, not_true_eq_false, if_false, hf, hn] at hab
      cases hab
    · rw [farBranches] at hf
      rw [hf] at hf'
      cases hf'
      exact ⟨bi, nxt, rfl, hg, hstep⟩

/-- With enough fuel the explicit-path walk aborts exactly when some path entry
is not the lane of any ongoing branch at the far end of the lane-end traversed
just before it. -/
theorem walk_explicit_abort_iff {src : SourceRoad} {path : List LaneId} (hp : path ≠ [])
    (fuel : Nat) (st : WalkState) (hf : st.path_it.length < fuel) :
    walk src path fuel st = Res.abort ↔
      ∃ i e p, traversed src st.current st.path_it i = some e ∧ st.path_it[i]? = some p ∧
        ∀ b ∈ farBranches src e, b.lane ≠ p := by
  induction fuel generalizing st with
  | zero => omega
  | succ n ih =>
    simp only [walk]
    cases hit : st.path_it with
    | nil =>
      rw [step_explicit_end hp hit]
      simp
    | cons p ps =>
      rw [hit] at hf
      simp only [List.length_cons] at hf
      rcases @step_explicit_cases src path st p ps hp hit with ⟨hnone, hab⟩ | ⟨bi, nxt, hfb, hg, hstep⟩
      · rw [hab]
        simp only [true_iff]
        exact ⟨0, st.current, p, rfl, by simp, (find_bi_none _ _ _).mp hnone⟩
      · rw [hstep]
        obtain ⟨nxt', hn1, _, hfind⟩ := find_bi_find _ _ _ _ hfb
        simp only [Nat.sub_zero] at hn1
        rw [hg] at hn1
        cases hn1
        have hsome : ¬ ∀ b ∈ farBranches src st.current, b.lane ≠ p := by
          intro hall
          rw [(find_bi_none p _ 0).mpr hall] at hfb
          cases hfb
        rw [ih _ (by simpa using (by omega : ps.length < n))]
        simp only
        constructor
        · rintro ⟨i, e, q, h1, h2, h3⟩
          refine ⟨i + 1, e, q, ?_, by simpa using h2, h3⟩
          rw [traversed_cons_succ, hfind]
          exact h1
        · rintro ⟨i, e, q, h1, h2, h3⟩
          cases i with
          | zero =>
            simp only [traversed, Option.some.injEq, List.getElem?_cons_zero] at h1 h2
            subst h1 h2
            exact absurd h3 hsome
          | succ m =>
            rw [traversed_cons_succ, hfind] at h1
            exact ⟨m, e, q, h1, by simpa using h2, h3⟩


theorem ctor_abort_iff (fuel : Nat) (src : SourceRoad) (start : LaneEnd) (path : List LaneId) :
    Lane.ctor fuel src start path = Res.abort ↔
      walk src path fuel ⟨[], 0, start, path, []⟩ = Res.abort := by
  unfold Lane.ctor
  cases walk src path fuel ⟨[], 0, start, path, []⟩ with
  | ok st =>
    simp only [reduceCtorEq, iff_false]
    split <;> simp
  | abort => simp
  | outOfFuel => simp

theorem ctor_outOfFuel_iff (fuel : Nat) (src : SourceRoad) (start : LaneEnd)
    (path : List LaneId) :
    Lane.ctor fuel src start path = Res.outOfFuel ↔
      walk src path fuel ⟨[], 0, start, path, []⟩ = Res.outOfFuel := by
  unfold Lane.ctor
  cases walk src path fuel ⟨[], 0, start, path, []⟩ with
  | ok st =>
    simp only [reduceCtorEq, iff_false]
    split <;> simp
  | abort => simp
  | outOfFuel => simp

theorem ctor_ok_of_not (fuel : Nat) (src : SourceRoad) (start : LaneEnd) (path : List LaneId)
    (h1 : Lane.ctor fuel src start path ≠ Res.abort)
    (h2 : Lane.ctor fuel src start path ≠ Res.outOfFuel) :
    ∃ lane, Lane.ctor fuel src start path = Res.ok lane := by
  cases h : Lane.ctor fuel src start path with
  | ok lane => exact ⟨lane, rfl⟩
  | abort => exact absurd h h1
  | outOfFuel => exact absurd h h2

theorem traversed_none_succ (src : SourceRoad) (start : LaneEnd) (path : List LaneId)
    (i d : Nat) (h : traversed src start path i = none) :
    traversed src start path (i + d) = none := by
  induction d with
  | zero => exact h
  | succ n ih =>
    rw [← Nat.add_assoc, traversed, ih]

/-- C11: in explicit-path mode (enough fuel for the whole path) construction
aborts if and only if for some `i` the lane `path[i]` is not the lane of any
ongoing branch at the far end of the `i`-th traversed lane-end (an empty branch
set included), and otherwise it succeeds; the branches at the far end of the
last traversed lane-end play no part: once every path entry has been found
construction succeeds whatever they are.  On `lollipopRoad` the path 1, 2 from
the start of lane 0 succeeds with 3 records and total length 30 although no
branch leads from lane 2 back to lane 0. -/
theorem explicit_path_failure :
    (∀ (fuel : Nat) (src : SourceRoad) (start : LaneEnd) (path : List LaneId),
      path ≠ [] → path.length < fuel →
      (Lane.ctor fuel src start path = Res.abort ↔
        ∃ i e p, traversed src start path i = some e ∧ path[i]? = some p ∧
          ∀ b ∈ src.GetOngoingBranches e.lane (other_end e), b.lane ≠ p) ∧
      (Lane.ctor fuel src start path ≠ Res.abort →
        ∃ lane, Lane.ctor fuel src start path = Res.ok lane) ∧
      (∀ last, traversed src start path path.length = some last →
        ∃ lane, Lane.ctor fuel src start path = Res.ok lane)) ∧
    Lane.ctor 3 lollipopRoad ⟨0, Which.kStart⟩ [1, 2] =
      Res.ok ⟨[⟨0, 0, 10, false⟩, ⟨1, 10, 20, false⟩, ⟨2, 20, 30, false⟩], 30⟩ := by
  refine ⟨?_, by decide!⟩
  intro fuel src start path hp hf
  have hiff := @walk_explicit_abort_iff src path hp fuel ⟨[], 0, start, path, []⟩ hf
  have hfuel : Lane.ctor fuel src start path ≠ Res.outOfFuel := by
    rw [Ne, ctor_outOfFuel_iff]
    exact walk_explicit_fuel hp fuel _ hf
  refine ⟨?_, fun hna => ctor_ok_of_not _ _ _ _ hna hfuel, ?_⟩
  · rw [ctor_abort_iff, hiff]
    rfl
  · intro last hlast
    apply ctor_ok_of_not _ _ _ _ _ hfuel
    rw [Ne, ctor_abort_iff, hiff]
    rintro ⟨i, e, p, h1, h2, h3⟩
    simp only at h1 h2
    have hi : i < path.length := by
      by_contra hge
      rw [List.getElem?_eq_none (by omega)] at h2
      cases h2
    have hnone : traversed src start path (i + 1) = none := by
      rw [traversed, h1, h2]
      simp only
      rw [List.find?_eq_none]
      intro b hb
      simpa using h3 b hb
    have := traversed_none_succ src start path (i + 1) (path.length - (i + 1)) hnone
    rw [show i + 1 + (path.length - (i + 1)) = path.length by omega, hlast] at this
    cases this

/-- Witness for C11: on `lollipopRoad` the path 1, 2 from the start of lane 0 is
followed to its end, so construction does not abort. -/
theorem explicit_path_failure_witness :
    ([1, 2] : List LaneId) ≠ [] ∧ ([1, 2] : List LaneId).length < 3 ∧
      ∃ lane, Lane.ctor 3 lollipopRoad ⟨0, Which.kStart⟩ [1, 2] = Res.ok lane :=
  ⟨by decide, by decide,
    (explicit_path_failure.1 3 lollipopRoad ⟨0, Which.kStart⟩ [1, 2]
      (by decide) (by decide)).2.2 ⟨2, Which.kStart⟩ (by decide)⟩


/-! ## The auto-detect walk -/

theorem step_auto_cases (src : SourceRoad) (st : WalkState) :
    (branch0 src st.current = none ∧ step src [] st = Step.abort) ∨
    (∃ nxt, branch0 src st.current = some nxt ∧
      mapCount (mapSet st.seen_records st.current st.records_.length) nxt = true ∧
      step src [] st = Step.brk ⟨mapSet st.seen_records st.current st.records_.length,
        st.start_s + src.length st.current.lane, nxt, st.path_it,
        st.records_ ++ [pushed src st]⟩) ∨
    (∃ nxt, branch0 src st.current = some nxt ∧
      mapCount (mapSet st.seen_records st.current st.records_.length) nxt = false ∧
      step src [] st = Step.cont ⟨mapSet st.seen_records st.current st.records_.length,
        st.start_s + src.length st.current.lane, nxt, st.path_it,
        st.records_ ++ [pushed src st]⟩) := by
  unfold step branch0
  simp only [List.length_nil, gt_iff_lt, lt_self_iff_false, false_and, if_false]
  cases hb : src.GetOngoingBranches st.current.lane (other_end st.current) with
  | nil => left; simp
  | cons b rest =>
    right
    simp only [List.length_cons, Nat.zero_lt_succ, not_true_eq_false, if_false,
      List.getElem?_cons_zero]
    cases hc : mapCount (mapSet st.seen_records st.current st.records_.length) b with
    | true => left; exact ⟨b, rfl, hc, by simp [pushed]⟩
    | false => right; exact ⟨b, rfl, hc, by simp [pushed]⟩

theorem AutoInv.at_start (src : SourceRoad) (start : LaneEnd) (path_it : List LaneId) :
    AutoInv src start ⟨[], 0, start, path_it, []⟩ := by
  refine ⟨⟨rfl, ?_, ?_, ?_⟩, rfl⟩
  · intro i r hr; simp at hr
  · intro e he; simp [mapCount] at he
  · intro i e hi; simp at hi

/-- One pass of the auto-detect loop records the current lane-end and moves to
branch 0 at its far end. -/
theorem AutoInv.push {src : SourceRoad} {start : LaneEnd} {st : WalkState}
    (hinv : AutoInv src start st) {nxt : LaneEnd} (hn : branch0 src st.current = some nxt)
    (path_it : List LaneId) :
    AutoRec src start ⟨mapSet st.seen_records st.current st.records_.length,
      st.start_s + src.length st.current.lane, nxt, path_it,
      st.records_ ++ [pushed src st]⟩ := by
  obtain ⟨⟨h1, h2, h3, h4⟩, h5⟩ := hinv
  refine ⟨?_, ?_, ?_, ?_⟩
  · simp only [List.length_append, List.length_singleton, orbit, h1, hn]
  · intro i r hr
    by_cases hi : i < st.records_.length
    · rw [List.getElem?_append_left hi] at hr
      exact h2 i r hr
    · have hi' : st.records_.length ≤ i := not_lt.mp hi
      rw [List.getElem?_append_right hi'] at hr
      cases hd : i - st.records_.length with
      | zero =>
        rw [hd] at hr
        simp only [List.getElem?_cons_zero, Option.some.injEq] at hr
        subst hr
        have : i = st.records_.length := by omega
        rw [this, pushed_laneEnd]
        exact h1
      | succ m =>
        rw [hd] at hr
        simp at hr
  · intro e he
    simp only [mapCount_mapSet, Bool.or_eq_true, decide_eq_true_eq] at he
    simp only [List.length_append, List.length_singleton]
    rcases he with he | he
    · subst he
      exact ⟨st.records_.length, Nat.lt_succ_self _, h1⟩
    · obtain ⟨i, hi, hoi⟩ := h3 e he
      exact ⟨i, Nat.lt_succ_of_lt hi, hoi⟩
  · intro i e hi hoi
    simp only [List.length_append, List.length_singleton] at hi
    simp only [mapCount_mapSet, mapGet_mapSet, Bool.or_eq_true, decide_eq_true_eq]
    by_cases hil : i < st.records_.length
    · obtain ⟨hc, hg⟩ := h4 i e hil hoi
      have hne : st.current ≠ e := by
        intro heq
        rw [heq, hc] at h5
        cases h5
      exact ⟨Or.inr hc, by simp [hne, hg]⟩
    · have hie : i = st.records_.length := by omega
      subst hie
      rw [h1] at hoi
      cases hoi
      exact ⟨Or.inl rfl, by simp⟩


theorem walk_auto {src : SourceRoad} {start : LaneEnd} (fuel : Nat) {st st' : WalkState}
    (hinv : AutoInv src start st) (h : walk src [] fuel st = Res.ok st') :
    AutoRec src start st' ∧ mapCount st'.seen_records st'.current = true := by
  induction fuel generalizing st with
  | zero => simp [walk] at h
  | succ n ih =>
    simp only [walk] at h
    rcases step_auto_cases src st with ⟨_, hs⟩ | ⟨nxt, hn, hc, hs⟩ | ⟨nxt, hn, hc, hs⟩
    · rw [hs] at h
      cases h
    · rw [hs] at h
      injection h with h
      subst h
      exact ⟨hinv.push hn _, hc⟩
    · rw [hs] at h
      exact ih ⟨hinv.push hn _, hc⟩ h

theorem orbit_none_add (src : SourceRoad) (start : LaneEnd) (j d : Nat)
    (h : orbit src start j = none) : orbit src start (j + d) = none := by
  induction d with
  | zero => exact h
  | succ n ih => rw [← Nat.add_assoc, orbit, ih]

theorem orbit_some_of_le (src : SourceRoad) (start : LaneEnd) {i j : Nat} {e : LaneEnd}
    (h : orbit src start j = some e) (hij : i ≤ j) : ∃ e', orbit src start i = some e' := by
  cases hi : orbit src start i with
  | some e' => exact ⟨e', rfl⟩
  | none =>
    have := orbit_none_add src start i (j - i) hi
    rw [show i + (j - i) = j by omega, h] at this
    cases this

theorem orbit_shift (src : SourceRoad) (start : LaneEnd) (a b d : Nat)
    (h : orbit src start a = orbit src start b) :
    orbit src start (a + d) = orbit src start (b + d) := by
  induction d with
  | zero => exact h
  | succ n ih => rw [← Nat.add_assoc, ← Nat.add_assoc, orbit, orbit, ih]

/-- Once the branch-0 walk comes back to a lane-end it has visited, it goes round
for ever: it never meets a dead end. -/
theorem orbit_never_none (src : SourceRoad) (start : LaneEnd) {k m : Nat} {e : LaneEnd}
    (hkm : k < m) (hk : orbit src start k = some e) (hm : orbit src start m = some e)
    (x : Nat) : orbit src start x ≠ none := by
  induction x using Nat.strong_induction_on with
  | _ x ih =>
    by_cases hx : x ≤ m
    · obtain ⟨e', he'⟩ := orbit_some_of_le src start hm hx
      rw [he']
      simp
    · have hsh := orbit_shift src start k m (x - m) (by rw [hk, hm])
      rw [show m + (x - m) = x by omega] at hsh
      rw [← hsh]
      exact ih (k + (x - m)) (by omega)

/-- The auto-detect walk aborts when the branch-0 walk reaches a dead end. -/
theorem walk_auto_abort {src : SourceRoad} {start : LaneEnd} {j : Nat} {e : LaneEnd}
    (hj : orbit src start j = some e) (hdead : branch0 src e = none)
    (fuel : Nat) (st : WalkState) (hinv : AutoInv src start st)
    (hn : st.records_.length ≤ j) (hf : j < fuel + st.records_.length) :
    walk src [] fuel st = Res.abort := by
  induction fuel generalizing st with
  | zero => omega
  | succ n ih =>
    have hnext : orbit src start (j + 1) = none := by
      rw [orbit, hj]
      exact hdead
    simp only [walk]
    rcases step_auto_cases src st with ⟨_, hs⟩ | ⟨nxt, hb, hc, hs⟩ | ⟨nxt, hb, hc, hs⟩
    · rw [hs]
    · exfalso
      have hrec := hinv.push hb st.path_it
      obtain ⟨i, hi, hoi⟩ := hrec.2.2.1 nxt hc
      have hlen := hrec.1
      simp only [List.length_append, List.length_singleton] at hi hlen
      exact orbit_never_none src start hi hoi hlen (j + 1) hnext
    · rw [hs]
      have hlt : st.records_.length < j := by
        rcases Nat.lt_or_ge st.records_.length j with h | h
        · exact h
        · exfalso
          have hjn : j = st.records_.length := by omega
          rw [hjn, hinv.1.1] at hj
          cases hj
          rw [hdead] at hb
          cases hb
      apply ih _ ⟨hinv.push hb _, hc⟩
      · simp only [List.length_append, List.length_singleton]; omega
      · simp only [List.length_append, List.length_singleton]; omega

/-- The auto-detect walk aborts only at a dead end of the branch-0 walk. -/
theorem walk_auto_abort_dead {src : SourceRoad} {start : LaneEnd} (fuel : Nat)
    (st : WalkState) (hinv : AutoInv src start st) (h : walk src [] fuel st = Res.abort) :
    ∃ j e, orbit src start j = some e ∧ branch0 src e = none := by
  induction fuel generalizing st with
  | zero => simp [walk] at h
  | succ n ih =>
    simp only [walk] at h
    rcases step_auto_cases src st with ⟨hd, _⟩ | ⟨nxt, hb, hc, hs⟩ | ⟨nxt, hb, hc, hs⟩
    · exact ⟨_, _, hinv.1.1, hd⟩
    · rw [hs] at h
      cases h
    · rw [hs] at h
      exact ih _ ⟨hinv.push hb _, hc⟩ h


/-! ## Termination of the auto-detect walk on a finite road -/

theorem LaneEnd.code_inj {e e' : LaneEnd} (h : e.code = e'.code) : e = e' := by
  obtain ⟨l, w⟩ := e
  obtain ⟨l', w'⟩ := e'
  simp only [LaneEnd.code] at h
  cases w <;> cases w'
  · have h' : @Eq Nat (2 * l + 0) (2 * l' + 0) := by simpa using h
    have : @Eq Nat l l' := by omega
    subst this
    rfl
  · exfalso
    have h' : @Eq Nat (2 * l + 0) (2 * l' + 1) := by simpa using h
    omega
  · exfalso
    have h' : @Eq Nat (2 * l + 1) (2 * l' + 0) := by simpa using h
    omega
  · have h' : @Eq Nat (2 * l + 1) (2 * l' + 1) := by simpa using h
    have : @Eq Nat l l' := by omega
    subst this
    rfl

theorem LaneEnd.code_lt {e : LaneEnd} {N : Nat} (h : e.lane < N) : e.code < 2 * N := by
  have h' : @LT.lt Nat _ e.lane N := h
  simp only [LaneEnd.code]
  split <;> omega

theorem orbit_lane_lt {src : SourceRoad} {start : LaneEnd} {N : Nat}
    (hN : HasLanes src N) (hs : start.lane < N) (j : Nat) (e : LaneEnd)
    (h : orbit src start j = some e) : e.lane < N := by
  induction j generalizing e with
  | zero =>
    simp only [orbit, Option.some.injEq] at h
    subst h
    exact hs
  | succ n ih =>
    simp only [orbit] at h
    cases ho : orbit src start n with
    | none => rw [ho] at h; cases h
    | some e' =>
      rw [ho] at h
      simp only [branch0] at h
      exact hN _ _ _ (List.getElem?_mem h)

/-- At the head of the auto-detect loop the lane-ends recorded so far and the
current one are pairwise different. -/
theorem AutoInv.distinct {src : SourceRoad} {start : LaneEnd} {st : WalkState}
    (hinv : AutoInv src start st) {i i' : Nat} {e : LaneEnd}
    (hi : i ≤ st.records_.length) (hi' : i' ≤ st.records_.length)
    (ho : orbit src start i = some e) (ho' : orbit src start i' = some e) : i = i' := by
  obtain ⟨⟨h1, _, _, h4⟩, h5⟩ := hinv
  rcases Nat.lt_or_ge i st.records_.length with hl | hl
  · rcases Nat.lt_or_ge i' st.records_.length with hl' | hl'
    · rw [← (h4 i e hl ho).2, ← (h4 i' e hl' ho').2]
    · have : i' = st.records_.length := by omega
      rw [this, h1] at ho'
      cases ho'
      rw [(h4 i _ hl ho).1] at h5
      cases h5
  · have hi2 : i = st.records_.length := by omega
    rcases Nat.lt_or_ge i' st.records_.length with hl' | hl'
    · rw [hi2, h1] at ho
      cases ho
      rw [(h4 i' _ hl' ho').1] at h5
      cases h5
    · omega

/-- On a road with `N` lanes the auto-detect loop is entered with fewer than
`2 * N` records. -/
theorem AutoInv.bound {src : SourceRoad} {start : LaneEnd} {st : WalkState} {N : Nat}
    (hinv : AutoInv src start st) (hN : HasLanes src N) (hs : start.lane < N) :
    st.records_.length + 1 ≤ 2 * N := by
  have hsome : ∀ i, i ≤ st.records_.length → ∃ e, orbit src start i = some e :=
    fun i hi => orbit_some_of_le src start hinv.1.1 hi
  have hcard := Finset.card_le_card_of_injOn
    (s := Finset.range (st.records_.length + 1)) (t := Finset.range (2 * N))
    (fun i => match orbit src start i with
      | some e => e.code
      | none => 0) ?_ ?_
  · simpa using hcard
  · intro i hi
    simp only [Finset.mem_range] at hi ⊢
    obtain ⟨e, he⟩ := hsome i (by omega)
    rw [he]
    exact LaneEnd.code_lt (orbit_lane_lt hN hs i e he)
  · intro i hi i' hi' hii
    simp only [Finset.coe_range, Set.mem_Iio] at hi hi'
    obtain ⟨e, he⟩ := hsome i (by omega)
    obtain ⟨e', he'⟩ := hsome i' (by omega)
    simp only [he, he'] at hii
    have := LaneEnd.code_inj hii
    subst this
    exact hinv.distinct (by omega) (by omega) he he'

/-- On a road with `N` lanes, `2 * N` passes are enough for the auto-detect walk. -/
theorem walk_auto_fuel {src : SourceRoad} {start : LaneEnd} {N : Nat}
    (hN : HasLanes src N) (hs : start.lane < N) (fuel : Nat) (st : WalkState)
    (hinv : AutoInv src start st) (hf : 2 * N ≤ fuel + st.records_.length) :
    walk src [] fuel st ≠ Res.outOfFuel := by
  induction fuel generalizing st with
  | zero =>
    have := hinv.bound hN hs
    omega
  | succ n ih =>
    simp only [walk]
    rcases step_auto_cases src st with ⟨_, hstep⟩ | ⟨nxt, hb, hc, hstep⟩ | ⟨nxt, hb, hc, hstep⟩
    · rw [hstep]; simp
    · rw [hstep]; simp
    · rw [hstep]
      apply ih _ ⟨hinv.push hb _, hc⟩
      simp only [List.length_append, List.length_singleton]
      omega


theorem branch0_eq_none (src : SourceRoad) (e : LaneEnd) :
    branch0 src e = none ↔ src.GetOngoingBranches e.lane (other_end e) = [] := by
  unfold branch0
  cases src.GetOngoingBranches e.lane (other_end e) <;> simp

/-- On a road with `N` lanes whose branch-0 walk meets no dead end,
auto-detection succeeds within `2 * N` passes. -/
theorem ctor_auto_succeeds {src : SourceRoad} {start : LaneEnd} {N : Nat}
    (hN : HasLanes src N) (hs : start.lane < N)
    (hlive : ∀ (j : Nat) (e : LaneEnd), orbit src start j = some e →
      src.GetOngoingBranches e.lane (other_end e) ≠ [])
    (fuel : Nat) (hf : 2 * N ≤ fuel) : ∃ lane, Lane.ctor fuel src start [] = Res.ok lane := by
  apply ctor_ok_of_not
  · rw [Ne, ctor_abort_iff]
    intro hab
    obtain ⟨j, e, hj, hd⟩ := walk_auto_abort_dead fuel _ (AutoInv.at_start src start []) hab
    exact hlive j e hj ((branch0_eq_none src e).mp hd)
  · rw [Ne, ctor_outOfFuel_iff]
    exact walk_auto_fuel hN hs fuel _ (AutoInv.at_start src start []) (by simpa using hf)

/-- C12: in auto-detect mode (empty path) construction aborts whenever the
branch-0 walk from `start` reaches a lane-end whose far end has no ongoing
branch (this can only happen before a lane-end repeats); in particular a start
lane whose far end is a dead end aborts with any positive fuel instead of
looping; and on a road with `N` lanes, if no lane-end of the branch-0 walk has a
dead far end, construction succeeds within `2 * N` passes. -/
theorem auto_detect_dead_end :
    (∀ (src : SourceRoad) (start : LaneEnd) (j : Nat) (e : LaneEnd),
      orbit src start j = some e → src.GetOngoingBranches e.lane (other_end e) = [] →
      ∀ fuel, j < fuel → Lane.ctor fuel src start [] = Res.abort) ∧
    (∀ (src : SourceRoad) (start : LaneEnd),
      src.GetOngoingBranches start.lane (other_end start) = [] →
      ∀ fuel, 0 < fuel → Lane.ctor fuel src start [] = Res.abort) ∧
    (∀ (src : SourceRoad) (start : LaneEnd) (N : Nat), HasLanes src N → start.lane < N →
      (∀ (j : Nat) (e : LaneEnd), orbit src start j = some e →
        src.GetOngoingBranches e.lane (other_end e) ≠ []) →
      ∀ fuel, 2 * N ≤ fuel → ∃ lane, Lane.ctor fuel src start [] = Res.ok lane) := by
  have h1 : ∀ (src : SourceRoad) (start : LaneEnd) (j : Nat) (e : LaneEnd),
      orbit src start j = some e → src.GetOngoingBranches e.lane (other_end e) = [] →
      ∀ fuel, j < fuel → Lane.ctor fuel src start [] = Res.abort := by
    intro src start j e hj hdead fuel hf
    rw [ctor_abort_iff]
    exact walk_auto_abort hj ((branch0_eq_none src e).mpr hdead) fuel _
      (AutoInv.at_start src start []) (Nat.zero_le _) (by simpa using hf)
  refine ⟨h1, fun src start hdead fuel hf => h1 src start 0 start rfl hdead fuel hf, ?_⟩
  intro src start N hN hs hlive fuel hf
  exact ctor_auto_succeeds hN hs hlive fuel hf

/-- Witness for C12: the single lane of `deadEndRoad` with an empty path aborts. -/
theorem auto_detect_dead_end_witness :
    deadEndRoad.GetOngoingBranches (LaneEnd.mk 0 Which.kStart).lane
        (other_end ⟨0, Which.kStart⟩) = [] ∧
      Lane.ctor 1 deadEndRoad ⟨0, Which.kStart⟩ [] = Res.abort :=
  ⟨rfl, auto_detect_dead_end.2.1 deadEndRoad ⟨0, Which.kStart⟩ rfl 1 (by decide)⟩


/-! ## The result of auto-detection -/

theorem remeasure_getElem (src : SourceRoad) (rs : List Record) (a : ℚ) (i : Nat) (r : Record)
    (h : (remeasure src rs a).1[i]? = some r) :
    ∃ w, rs[i]? = some w ∧ r.lane = w.lane ∧ r.is_reversed = w.is_reversed := by
  induction rs generalizing a i with
  | nil => simp [remeasure] at h
  | cons x rest ih =>
    cases i with
    | zero =>
      simp only [remeasure, List.getElem?_cons_zero, Option.some.injEq] at h
      subst h
      exact ⟨x, by simp, rfl, rfl⟩
    | succ n =>
      simp only [remeasure, List.getElem?_cons_succ] at h
      obtain ⟨w, hw, h1, h2⟩ := ih _ n h
      exact ⟨w, by simpa using hw, h1, h2⟩

/-- What auto-detection returns: the walk stops in a state `st` whose current
lane-end was recorded at index `k = seen_records[current]`, and the lane holds
the walk's records from index `k` on, with lanes and directions unchanged. -/
theorem ctor_auto {fuel : Nat} {src : SourceRoad} {start : LaneEnd} {lane : Lane}
    (h : Lane.ctor fuel src start [] = Res.ok lane) :
    ∃ st, walk src [] fuel ⟨[], 0, start, [], []⟩ = Res.ok st ∧
      AutoRec src start st ∧
      mapGet st.seen_records st.current < st.records_.length ∧
      orbit src start (mapGet st.seen_records st.current) = some st.current ∧
      lane.records_.length = st.records_.length - mapGet st.seen_records st.current ∧
      (∀ (i : Nat) (r : Record), lane.records_[i]? = some r →
        ∃ w, st.records_[mapGet st.seen_records st.current + i]? = some w ∧
          r.lane = w.lane ∧ r.is_reversed = w.is_reversed) ∧
      (mapGet st.seen_records st.current = 0 →
        lane.records_ = st.records_ ∧ lane.cycle_length_ = st.start_s) := by
  unfold Lane.ctor at h
  split at h
  · rename_i st hw
    obtain ⟨hrec, hseen⟩ := walk_auto fuel (AutoInv.at_start src start []) hw
    obtain ⟨i, hi, hoi⟩ := hrec.2.2.1 _ hseen
    have hk : mapGet st.seen_records st.current = i := (hrec.2.2.2 i _ hi hoi).2
    refine ⟨st, hw, hrec, by omega, by rw [hk]; exact hoi, ?_⟩
    split at h
    · rename_i hc
      injection h with h
      subst h
      refine ⟨?_, ?_, ?_⟩
      · simp [remeasure_length]
      · intro j r hr
        obtain ⟨w, hw1, hw2, hw3⟩ := remeasure_getElem _ _ _ _ _ hr
        rw [List.getElem?_drop] at hw1
        exact ⟨w, hw1, hw2, hw3⟩
      · intro h0
        have := hc.2
        omega
    · rename_i hc
      injection h with h
      subst h
      have h0 : mapGet st.seen_records st.current = 0 := by
        simp only [List.length_nil, true_and, gt_iff_lt, not_lt, Nat.le_zero_eq] at hc
        exact hc
      refine ⟨by simp [h0], ?_, fun _ => ⟨rfl, rfl⟩⟩
      intro j r hr
      exact ⟨r, by simpa [h0] using hr, rfl, rfl⟩
  · cases h
  · cases h


theorem Record.laneEnd_congr {r w : Record} (h1 : r.lane = w.lane)
    (h2 : r.is_reversed = w.is_reversed) : r.laneEnd = w.laneEnd := by
  simp [Record.laneEnd, h1, h2]

theorem branch0_laneEnd (src : SourceRoad) (r : Record) :
    branch0 src r.laneEnd =
      (src.GetOngoingBranches r.lane
        (if r.is_reversed then Which.kStart else Which.kFinish))[0]? := by
  unfold branch0
  rw [other_end_laneEnd]
  rfl

theorem orbit_succ (src : SourceRoad) (start : LaneEnd) {x : Nat} {e : LaneEnd}
    (h : orbit src start x = some e) : orbit src start (x + 1) = branch0 src e := by
  rw [orbit, h]

/-- C15: in auto-detect mode the final records form a closed branch-0 cycle:
the lane-end entered by record `i + 1` is ongoing branch index 0 at the far end
of record `i`, and ongoing branch index 0 at the far end of the last record is
the lane-end entered by record 0.  On `demoRoad` (0 → 1 → 2 → 0, length 10 each)
from the start of lane 0 this gives three records on `[0, 10)`, `[10, 20)`,
`[20, 30)` and `cycle_length` 30. -/
theorem auto_detect_cycle :
    (∀ (fuel : Nat) (src : SourceRoad) (start : LaneEnd) (lane : Lane),
      Lane.ctor fuel src start [] = Res.ok lane →
      (∀ (i : Nat) (a b : Record),
        lane.records_[i]? = some a → lane.records_[i + 1]? = some b →
        (src.GetOngoingBranches a.lane
          (if a.is_reversed then Which.kStart else Which.kFinish))[0]? = some b.laneEnd) ∧
      (∀ (first last : Record),
        lane.records_[0]? = some first → lane.records_.getLast? = some last →
        (src.GetOngoingBranches last.lane
          (if last.is_reversed then Which.kStart else Which.kFinish))[0]? =
            some first.laneEnd)) ∧
    Lane.ctor 3 demoRoad ⟨0, Which.kStart⟩ [] =
      Res.ok ⟨[⟨0, 0, 10, false⟩, ⟨1, 10, 20, false⟩, ⟨2, 20, 30, false⟩], 30⟩ := by
  refine ⟨?_, by decide!⟩
  intro fuel src start lane h
  obtain ⟨st, hw, hrec, hk, hok, hlen, hel, h0⟩ := ctor_auto h
  have horb : ∀ (i : Nat) (r : Record), lane.records_[i]? = some r →
      orbit src start (mapGet st.seen_records st.current + i) = some r.laneEnd := by
    intro i r hr
    obtain ⟨w, hw1, hw2, hw3⟩ := hel i r hr
    rw [Record.laneEnd_congr hw2 hw3]
    exact hrec.2.1 _ _ hw1
  constructor
  · intro i a b ha hb
    have h1 := orbit_succ src start (horb i a ha)
    rw [Nat.add_assoc, horb (i + 1) b hb, branch0_laneEnd] at h1
    exact h1.symm
  · intro first last hfirst hlast
    rw [List.getLast?_eq_getElem?] at hlast
    have h1 := orbit_succ src start (horb _ last hlast)
    have hpos : 0 < lane.records_.length := by
      cases hl : lane.records_ with
      | nil => rw [hl] at hfirst; simp at hfirst
      | cons x rest => simp
    have hidx : mapGet st.seen_records st.current + (lane.records_.length - 1) + 1 =
        st.records_.length := by omega
    rw [hidx, hrec.1, branch0_laneEnd] at h1
    have h2 := horb 0 first hfirst
    rw [Nat.add_zero, hok] at h2
    rw [← h1, h2]

/-- Witness for C15: on `demoRoad` from the start of lane 0, branch 0 at the far
end of the last record (lane 2) is the start of lane 0, the first record. -/
theorem auto_detect_cycle_witness :
    (∀ (i : Nat) (a b : Record),
      (Lane.mk [⟨0, 0, 10, false⟩, ⟨1, 10, 20, false⟩, ⟨2, 20, 30, false⟩] 30).records_[i]? =
        some a →
      (Lane.mk [⟨0, 0, 10, false⟩, ⟨1, 10, 20, false⟩, ⟨2, 20, 30, false⟩] 30).records_[i + 1]? =
        some b →
      (demoRoad.GetOngoingBranches a.lane
        (if a.is_reversed then Which.kStart else Which.kFinish))[0]? = some b.laneEnd) ∧
    (∀ (first last : Record),
      (Lane.mk [⟨0, 0, 10, false⟩, ⟨1, 10, 20, false⟩, ⟨2, 20, 30, false⟩] 30).records_[0]? =
        some first →
      (Lane.mk [⟨0, 0, 10, false⟩, ⟨1, 10, 20, false⟩, ⟨2, 20, 30, false⟩] 30).records_.getLast? =
        some last →
      (demoRoad.GetOngoingBranches last.lane
        (if last.is_reversed then Which.kStart else Which.kFinish))[0]? =
          some first.laneEnd) :=
  auto_detect_cycle.1 3 demoRoad ⟨0, Which.kStart⟩
    ⟨[⟨0, 0, 10, false⟩, ⟨1, 10, 20, false⟩, ⟨2, 20, 30, false⟩], 30⟩ (by decide!)


theorem walk_auto_bound {src : SourceRoad} {start : LaneEnd} {N : Nat}
    (hN : HasLanes src N) (hs : start.lane < N) (fuel : Nat) {st st' : WalkState}
    (hinv : AutoInv src start st) (h : walk src [] fuel st = Res.ok st') :
    st'.records_.length ≤ 2 * N := by
  induction fuel generalizing st with
  | zero => simp [walk] at h
  | succ n ih =>
    simp only [walk] at h
    rcases step_auto_cases src st with ⟨_, hstep⟩ | ⟨nxt, hb, hc, hstep⟩ | ⟨nxt, hb, hc, hstep⟩
    · rw [hstep] at h
      cases h
    · rw [hstep] at h
      injection h with h
      subst h
      have := hinv.bound hN hs
      simpa using this
    · rw [hstep] at h
      exact ih ⟨hinv.push hb _, hc⟩ h

theorem demoRoad_hasLanes : HasLanes demoRoad 4 := by
  intro l e b hb
  have h' : @LT.lt Nat _ b.lane 4 := by
    unfold demoRoad at hb
    simp only at hb
    split at hb <;> simp at hb
    all_goals first
      | (subst hb; decide)
      | (rcases hb with hb | hb <;> subst hb <;> decide)
  exact h'

theorem demoRoad_orbit (j : Nat) :
    orbit demoRoad ⟨0, Which.kStart⟩ j = some ⟨0, Which.kStart⟩ ∨
    orbit demoRoad ⟨0, Which.kStart⟩ j = some ⟨1, Which.kStart⟩ ∨
    orbit demoRoad ⟨0, Which.kStart⟩ j = some ⟨2, Which.kStart⟩ := by
  induction j with
  | zero => exact Or.inl rfl
  | succ n ih =>
    rcases ih with h | h | h
    · right; left; rw [orbit, h]; rfl
    · right; right; rw [orbit, h]; rfl
    · left; rw [orbit, h]; rfl

theorem demoRoad_no_dead_end (j : Nat) (e : LaneEnd)
    (h : orbit demoRoad ⟨0, Which.kStart⟩ j = some e) :
    demoRoad.GetOngoingBranches e.lane (other_end e) ≠ [] := by
  rcases demoRoad_orbit j with h' | h' | h' <;>
    · rw [h'] at h
      cases h
      decide

/-- C17: on a source road with `N` lanes auto-detect construction terminates:
`2 * N` passes of the loop are always enough (it ends in success or in an
abort, never by running out of fuel), and if every lane-end of the branch-0
walk has an ongoing branch at its far end the walk stops after recording at
most `2 * N` traversals, no lane-end being recorded twice, and construction
succeeds. -/
theorem auto_detect_terminates (src : SourceRoad) (start : LaneEnd) (N : Nat)
    (hN : HasLanes src N) (hs : start.lane < N) :
    (∀ fuel, 2 * N ≤ fuel → Lane.ctor fuel src start [] ≠ Res.outOfFuel) ∧
    ((∀ (j : Nat) (e : LaneEnd), orbit src start j = some e →
        src.GetOngoingBranches e.lane (other_end e) ≠ []) →
      ∃ st, walk src [] (2 * N) ⟨[], 0, start, [], []⟩ = Res.ok st ∧
        st.records_.length ≤ 2 * N ∧
        (∀ (i i' : Nat) (a b : Record), st.records_[i]? = some a →
          st.records_[i']? = some b → a.laneEnd = b.laneEnd → i = i') ∧
        ∃ lane, Lane.ctor (2 * N) src start [] = Res.ok lane) := by
  have hfuel : ∀ fuel, 2 * N ≤ fuel → Lane.ctor fuel src start [] ≠ Res.outOfFuel := by
    intro fuel hf
    rw [Ne, ctor_outOfFuel_iff]
    exact walk_auto_fuel hN hs fuel _ (AutoInv.at_start src start []) (by simpa using hf)
  refine ⟨hfuel, ?_⟩
  intro hlive
  obtain ⟨lane, hl⟩ := ctor_auto_succeeds hN hs hlive (2 * N) (le_refl _)
  obtain ⟨st, hw, hrec, _⟩ := ctor_auto hl
  refine ⟨st, hw, walk_auto_bound hN hs _ (AutoInv.at_start src start []) hw, ?_, lane, hl⟩
  intro i i' a b ha hb hab
  have hi : i < st.records_.length := (List.getElem?_eq_some_iff.mp ha).1
  have hi' : i' < st.records_.length := (List.getElem?_eq_some_iff.mp hb).1
  have h1 := hrec.2.1 i a ha
  have h2 := hrec.2.1 i' b hb
  rw [hab] at h1
  rw [← (hrec.2.2.2 i _ hi h1).2, ← (hrec.2.2.2 i' _ hi' h2).2]

/-- Witness for C17: `demoRoad` has 4 lanes and no dead end on the branch-0 walk
from the start of lane 0, so that walk stops within 8 passes. -/
theorem auto_detect_terminates_witness :
    HasLanes demoRoad 4 ∧ (LaneEnd.mk 0 Which.kStart).lane < 4 ∧
      ∃ st, walk demoRoad [] (2 * 4) ⟨[], 0, ⟨0, Which.kStart⟩, [], []⟩ = Res.ok st ∧
        st.records_.length ≤ 2 * 4 ∧
        (∀ (i i' : Nat) (a b : Record), st.records_[i]? = some a →
          st.records_[i']? = some b → a.laneEnd = b.laneEnd → i = i') ∧
        ∃ lane, Lane.ctor (2 * 4) demoRoad ⟨0, Which.kStart⟩ [] = Res.ok lane :=
  ⟨demoRoad_hasLanes, by decide,
    (auto_detect_terminates demoRoad ⟨0, Which.kStart⟩ 4 demoRoad_hasLanes (by decide)).2
      demoRoad_no_dead_end⟩


/-! ## Direction flags -/

theorem ExplicitTail.traversed_eq {src : SourceRoad} {cur : LaneEnd} {path : List LaneId}
    {tail : List Record} (h : ExplicitTail src cur path tail) (i : Nat) (r : Record)
    (hr : tail[i]? = some r) : traversed src cur path i = some r.laneEnd := by
  induction h generalizing i with
  | last cur r0 h0 =>
    cases i with
    | zero =>
      simp only [List.getElem?_cons_zero, Option.some.injEq] at hr
      subst hr
      rw [h0]
      rfl
    | succ n => simp at hr
  | next cur r0 p ps bi nxt tail h0 hf hg _ ih =>
    cases i with
    | zero =>
      simp only [List.getElem?_cons_zero, Option.some.injEq] at hr
      subst hr
      rw [h0]
      rfl
    | succ n =>
      simp only [List.getElem?_cons_succ] at hr
      obtain ⟨nxt', hn1, _, hfind⟩ := find_bi_find _ _ _ _ hf
      simp only [Nat.sub_zero] at hn1
      rw [hg] at hn1
      cases hn1
      rw [traversed_cons_succ]
      simp only [farBranches, hfind]
      exact ih n hr

theorem Record.laneEnd_end (r : Record) :
    (r.is_reversed = true ↔ r.laneEnd.end_ = Which.kFinish) ∧
    (r.is_reversed = false ↔ r.laneEnd.end_ = Which.kStart) := by
  cases h : r.is_reversed <;> simp [Record.laneEnd, h]

/-- The first record pushed by a successful walk is the traversal of `start`. -/
theorem walk_first {src : SourceRoad} {path : List LaneId} {start : LaneEnd} (fuel : Nat)
    {st : WalkState} (h : walk src path fuel ⟨[], 0, start, path, []⟩ = Res.ok st) :
    ∃ r0, st.records_[0]? = some r0 ∧ r0.laneEnd = start := by
  cases fuel with
  | zero => simp [walk] at h
  | succ n =>
    simp only [walk] at h
    have hkeep : ∀ (m : Nat) (s1 s2 : WalkState) (r : Record), s1.records_[0]? = some r →
        walk src path m s1 = Res.ok s2 → s2.records_[0]? = some r := by
      intro m
      induction m with
      | zero => intro s1 s2 r _ hw; simp [walk] at hw
      | succ k ih =>
        intro s1 s2 r hr hw
        simp only [walk] at hw
        have hpos : 0 < s1.records_.length := (List.getElem?_eq_some_iff.mp hr).1
        split at hw
        · rename_i s3 hstep
          injection hw with hw
          subst hw
          rw [(step_shape (Or.inl hstep)).2.2, List.getElem?_append_left hpos]
          exact hr
        · rename_i s3 hstep
          refine ih s3 s2 r ?_ hw
          rw [(step_shape (Or.inr hstep)).2.2, List.getElem?_append_left hpos]
          exact hr
        · cases hw
    split at h
    · rename_i s1 hstep
      injection h with h
      subst h
      refine ⟨pushed src ⟨[], 0, start, path, []⟩, ?_, pushed_laneEnd src ⟨[], 0, start, path, []⟩⟩
      rw [(step_shape (Or.inl hstep)).2.2]
      rfl
    · rename_i s1 hstep
      refine ⟨pushed src ⟨[], 0, start, path, []⟩, hkeep n s1 st _ ?_ h,
        pushed_laneEnd src ⟨[], 0, start, path, []⟩⟩
      rw [(step_shape (Or.inr hstep)).2.2]
      rfl
    · cases h


/-- C18 (amended): in both construction modes a record's `is_reversed` flag is
true exactly when the walk entered that source lane at its Finish end and false
exactly when it entered at Start.  The first record the walk pushes is the
traversal of `start`, so its flag is given by `start.end`; it is the lane's
first record with a path and, in auto-detect mode, when nothing is trimmed.
With a path, record `i` of the lane is the traversal of the `i`-th lane-end
reached by following the path; in auto-detect mode, with `k` records trimmed,
record `i` is the traversal of lane-end `k + i` of the branch-0 walk, so after
a trim (`k > 0`) the lane's first record follows the end at which the walk
entered its own lane, not `start.end`. -/
theorem is_reversed_iff_entered_at_finish (fuel : Nat) (src : SourceRoad) (start : LaneEnd)
    (path : List LaneId) (lane : Lane)
    (h : Lane.ctor fuel src start path = Res.ok lane) :
    ∃ st r0, walk src path fuel ⟨[], 0, start, path, []⟩ = Res.ok st ∧
      st.records_[0]? = some r0 ∧ r0.lane = start.lane ∧
      (r0.is_reversed = true ↔ start.end_ = Which.kFinish) ∧
      (r0.is_reversed = false ↔ start.end_ = Which.kStart) ∧
      (path ≠ [] →
        lane.records_ = st.records_ ∧
        ∀ (i : Nat) (r : Record), lane.records_[i]? = some r →
          ∃ e, traversed src start path i = some e ∧ r.lane = e.lane ∧
            (r.is_reversed = true ↔ e.end_ = Which.kFinish) ∧
            (r.is_reversed = false ↔ e.end_ = Which.kStart)) ∧
      (path = [] →
        ∃ k, k + lane.records_.length = st.records_.length ∧
          (k = 0 → lane.records_ = st.records_) ∧
          ∀ (i : Nat) (r : Record), lane.records_[i]? = some r →
            ∃ e, orbit src start (k + i) = some e ∧ r.lane = e.lane ∧
              (r.is_reversed = true ↔ e.end_ = Which.kFinish) ∧
              (r.is_reversed = false ↔ e.end_ = Which.kStart)) := by
  have hwalk : ∃ st, walk src path fuel ⟨[], 0, start, path, []⟩ = Res.ok st := by
    unfold Lane.ctor at h
    cases hw : walk src path fuel ⟨[], 0, start, path, []⟩ with
    | ok st => exact ⟨st, rfl⟩
    | abort => rw [hw] at h; cases h
    | outOfFuel => rw [hw] at h; cases h
  obtain ⟨st, hw⟩ := hwalk
  obtain ⟨r0, hr0, he0⟩ := walk_first fuel hw
  refine ⟨st, r0, hw, hr0, by rw [← he0]; rfl, ?_, ?_, ?_, ?_⟩
  · rw [← he0]; exact r0.laneEnd_end.1
  · rw [← he0]; exact r0.laneEnd_end.2
  · intro hp
    obtain ⟨st', hw', hrec, _⟩ := ctor_explicit hp h
    rw [hw] at hw'
    cases hw'
    refine ⟨hrec, ?_⟩
    intro i r hr
    obtain ⟨tail, htail, hex⟩ := walk_explicit hp fuel hw
    simp only [List.nil_append] at htail
    rw [hrec, htail] at hr
    exact ⟨r.laneEnd, hex.traversed_eq i r hr, rfl, r.laneEnd_end.1, r.laneEnd_end.2⟩
  · intro hp
    subst hp
    obtain ⟨st', hw', hrec, hk, _, hlen, hel, h0⟩ := ctor_auto h
    rw [hw] at hw'
    cases hw'
    refine ⟨mapGet st.seen_records st.current, by omega, fun hz => (h0 hz).1, ?_⟩
    intro i r hr
    obtain ⟨w, hw1, hw2, hw3⟩ := hel i r hr
    refine ⟨r.laneEnd, ?_, rfl, r.laneEnd_end.1, r.laneEnd_end.2⟩
    rw [Record.laneEnd_congr hw2 hw3]
    exact hrec.2.1 _ _ hw1

/-- Witness for C18: `demoLane` is built from the start of lane 3 along the path
1, 3, so its first record is not reversed. -/
theorem is_reversed_iff_entered_at_finish_witness :
    ∃ st r0, walk demoRoad [1, 3] 3 ⟨[], 0, ⟨3, Which.kStart⟩, [1, 3], []⟩ = Res.ok st ∧
      st.records_[0]? = some r0 ∧ r0.lane = (LaneEnd.mk 3 Which.kStart).lane ∧
      (r0.is_reversed = true ↔ (LaneEnd.mk 3 Which.kStart).end_ = Which.kFinish) ∧
      (r0.is_reversed = false ↔ (LaneEnd.mk 3 Which.kStart).end_ = Which.kStart) ∧
      (([1, 3] : List LaneId) ≠ [] →
        demoLane.records_ = st.records_ ∧
        ∀ (i : Nat) (r : Record), demoLane.records_[i]? = some r →
          ∃ e, traversed demoRoad ⟨3, Which.kStart⟩ [1, 3] i = some e ∧ r.lane = e.lane ∧
            (r.is_reversed = true ↔ e.end_ = Which.kFinish) ∧
            (r.is_reversed = false ↔ e.end_ = Which.kStart)) ∧
      (([1, 3] : List LaneId) = [] →
        ∃ k, k + demoLane.records_.length = st.records_.length ∧
          (k = 0 → demoLane.records_ = st.records_) ∧
          ∀ (i : Nat) (r : Record), demoLane.records_[i]? = some r →
            ∃ e, orbit demoRoad ⟨3, Which.kStart⟩ (k + i) = some e ∧ r.lane = e.lane ∧
              (r.is_reversed = true ↔ e.end_ = Which.kFinish) ∧
              (r.is_reversed = false ↔ e.end_ = Which.kStart)) :=
  is_reversed_iff_entered_at_finish 3 demoRoad ⟨3, Which.kStart⟩ [1, 3] demoLane (by decide!)


/-- Counterexample to C18 as stated: on `tailLoopRoad`, auto-detection from the
finish end of lane 0 walks lane 0 (reversed), lane 1 and lane 2, is stopped by
the start of lane 1 and trims record 0.  The lane's first record is then lane 1,
not reversed, although `start.end` is `kFinish`. -/
theorem first_record_flag_not_from_start :
    Lane.ctor 3 tailLoopRoad ⟨0, Which.kFinish⟩ [] =
        Res.ok ⟨[⟨1, 0, 10, false⟩, ⟨2, 10, 20, false⟩], 20⟩ ∧
      walk tailLoopRoad [] 3 ⟨[], 0, ⟨0, Which.kFinish⟩, [], []⟩ =
        Res.ok ⟨[(⟨0, Which.kFinish⟩, 0), (⟨1, Which.kStart⟩, 1), (⟨2, Which.kStart⟩, 2)], 30,
          ⟨1, Which.kStart⟩, [],
          [⟨0, 0, 10, true⟩, ⟨1, 10, 20, false⟩, ⟨2, 20, 30, false⟩]⟩ ∧
      ¬ (∀ first : Record,
          (Lane.mk [⟨1, 0, 10, false⟩, ⟨2, 10, 20, false⟩] 20).records_[0]? = some first →
          (first.is_reversed = true ↔ (LaneEnd.mk 0 Which.kFinish).end_ = Which.kFinish)) := by
  refine ⟨by decide!, by with_unfolding_all rfl, ?_⟩
  intro hall
  have h := hall ⟨1, 0, 10, false⟩ rfl
  simp at h

/-! ## Coordinates beyond the circuit, wrappers, and ranges -/

theorem scan_beyond (src : SourceRoad) (pos : LanePosition) (cs : ℚ) (rs : List Record)
    (k : Nat) (h : ∀ (i : Nat) (r : Record), rs[i]? = some r → r.end_circuit_s ≤ cs) :
    GetPathIndex_loop cs rs k = none ∧ ProjectToSourceRoad_loop src pos cs rs = none := by
  induction rs generalizing k with
  | nil => exact ⟨rfl, rfl⟩
  | cons x rest ih =>
    have hx : ¬ cs < x.end_circuit_s := not_lt.mpr (h 0 x List.getElem?_cons_zero)
    have hrest := ih (k + 1) (fun i r hr => h (i + 1) r (by simpa using hr))
    simp only [GetPathIndex_loop, ProjectToSourceRoad_loop, hx, if_false]
    exact hrest

/-- C13: on a constructed lane over source lanes of non-negative length, every
coordinate `s ≥ cycle_length` makes both `ProjectToSourceRoad` and
`GetPathIndex` fall off the end of the records and abort: the coordinate is
used as it is, without wraparound. -/
theorem no_wraparound_beyond_cycle (fuel : Nat) (src : SourceRoad) (start : LaneEnd)
    (path : List LaneId) (lane : Lane)
    (h : Lane.ctor fuel src start path = Res.ok lane) (hlen : ∀ l, 0 ≤ src.length l)
    (s r ht : ℚ) (hs : lane.cycle_length_ ≤ s) :
    lane.ProjectToSourceRoad src ⟨s, r, ht⟩ = none ∧ lane.GetPathIndex s = none ∧
      lane.circuit_s s = s := by
  obtain ⟨hm, _⟩ := ctor_measured h
  have hb := scan_beyond src ⟨s, r, ht⟩ s lane.records_ 0
    (fun i rec hr => le_trans (hm.end_le hlen hr) hs)
  exact ⟨hb.2, hb.1, rfl⟩

/-- Witness for C13: on `demoLane` (cycle length 24) the coordinate 24 is
already out of range. -/
theorem no_wraparound_beyond_cycle_witness :
    demoLane.ProjectToSourceRoad demoRoad ⟨24, 0, 0⟩ = none ∧
      demoLane.GetPathIndex 24 = none ∧ demoLane.circuit_s 24 = 24 :=
  no_wraparound_beyond_cycle 3 demoRoad ⟨3, Which.kStart⟩ [1, 3] demoLane (by decide!)
    demoRoad_length_nonneg 24 0 0 (by decide!)

/-- C16: the composition wrappers have cardinality one and no branch points:
the road reports 1 junction and 0 branch points, its junction 1 segment, its
segment 1 lane (the road's lane, at index 0) whose own index is 0 and whose
`to_left` and `to_right` are null; every branch-point query on the road or on
the lane aborts; and the road's tolerances are those of the source road. -/
theorem wrappers_cardinality_one (road : Road) (index : Int) (which : Which) :
    road.do_num_junctions = 1 ∧ road.do_num_branch_points = 0 ∧
    Junction.do_num_segments road = 1 ∧ Segment.do_num_lanes road = 1 ∧
    Segment.do_lane road 0 = some road.lane_ ∧
    road.lane_.do_index = 0 ∧ road.lane_.do_to_left = none ∧ road.lane_.do_to_right = none ∧
    road.do_branch_point index = none ∧
    road.lane_.DoGetBranchPoint which = none ∧
    road.lane_.DoGetConfluentBranches which = none ∧
    road.lane_.DoGetOngoingBranches which = none ∧
    road.lane_.DoGetDefaultBranch which = none ∧
    road.do_linear_tolerance = road.source_.linear_tolerance ∧
    road.do_angular_tolerance = road.source_.angular_tolerance :=
  ⟨rfl, rfl, rfl, rfl, rfl, rfl, rfl, rfl, rfl, rfl, rfl, rfl, rfl, rfl, rfl⟩


/-- On records laid end to end from `a` to `c`, a coordinate in `[a, c)` is
projected, whatever the lateral offset and height, through one and the same
record, whose interval contains it. -/
theorem scan_measured_all {src : SourceRoad} {a c : ℚ} {rs : List Record}
    (h : Measured src a rs c) (cs : ℚ) (h0 : a ≤ cs) (h1 : cs < c) :
    ∃ (i : Nat) (r : Record), rs[i]? = some r ∧ r.start_circuit_s ≤ cs ∧
      cs < r.end_circuit_s ∧
      ∀ pos : LanePosition, ProjectToSourceRoad_loop src pos cs rs =
        some (if r.is_reversed then
            (⟨r.lane, ⟨src.length r.lane - (cs - r.start_circuit_s), -pos.r, pos.h⟩⟩, true)
          else (⟨r.lane, ⟨cs - r.start_circuit_s, pos.r, pos.h⟩⟩, false)) := by
  induction rs generalizing a with
  | nil =>
    simp only [Measured] at h
    subst h
    exact absurd h1 (not_lt.mpr h0)
  | cons x rest ih =>
    obtain ⟨hx1, hx2, hx3⟩ := h
    by_cases hlt : cs < x.end_circuit_s
    · refine ⟨0, x, List.getElem?_cons_zero, by rw [hx1]; exact h0, hlt, ?_⟩
      intro pos
      cases hrev : x.is_reversed <;> simp [ProjectToSourceRoad_loop, hlt, hrev]
    · obtain ⟨i, r, hr, hs, he, hpr⟩ := ih hx3 (not_lt.mp hlt)
      refine ⟨i + 1, r, by simpa using hr, hs, he, ?_⟩
      intro pos
      simp only [ProjectToSourceRoad_loop, hlt, if_false]
      exact hpr pos

/-- Exact-arithmetic lemma: when offsets are added and subtracted without
rounding, for every `s` in `[0, cycle_length)` of a constructed lane the source
`s` returned by `ProjectToSourceRoad` satisfies `0 ≤ source_s < L` for a
non-reversed record and `0 < source_s ≤ L` for a reversed one, `L` being the
length of the source lane.  In `double` the strict bounds can be met with
equality. -/
theorem projected_s_in_source_range (fuel : Nat) (src : SourceRoad) (start : LaneEnd)
    (path : List LaneId) (lane : Lane)
    (h : Lane.ctor fuel src start path = Res.ok lane)
    (s r ht : ℚ) (h0 : 0 ≤ s) (h1 : s < lane.cycle_length_) :
    ∃ rp rev, lane.ProjectToSourceRoad src ⟨s, r, ht⟩ = some (rp, rev) ∧
      (rev = false → 0 ≤ rp.pos.s ∧ rp.pos.s < src.length rp.lane) ∧
      (rev = true → 0 < rp.pos.s ∧ rp.pos.s ≤ src.length rp.lane) := by
  obtain ⟨hm, _⟩ := ctor_measured h
  obtain ⟨i, rec, hi, hs, he, hpr⟩ := scan_measured_all hm s h0 h1
  have hspan := hm.span hi
  have hp := hpr ⟨s, r, ht⟩
  cases hrev : rec.is_reversed
  · rw [hrev] at hp
    refine ⟨_, false, hp, ?_, by simp⟩
    intro _
    simp only
    constructor <;> linarith
  · rw [hrev] at hp
    refine ⟨_, true, hp, by simp, ?_⟩
    intro _
    simp only
    constructor <;> linarith

/-- Instance of the exact-arithmetic lemma: coordinate 10 on `demoLane` lies in a
reversed record and projects into the range of lane 1. -/
theorem projected_s_in_source_range_witness :
    ∃ rp rev, demoLane.ProjectToSourceRoad demoRoad ⟨10, 1, 5⟩ = some (rp, rev) ∧
      (rev = false → 0 ≤ rp.pos.s ∧ rp.pos.s < demoRoad.length rp.lane) ∧
      (rev = true → 0 < rp.pos.s ∧ rp.pos.s ≤ demoRoad.length rp.lane) :=
  projected_s_in_source_range 3 demoRoad ⟨3, Which.kStart⟩ [1, 3] demoLane (by decide!)
    10 1 5 (by decide!) (by decide!)

/-- C20: the reversal of the bounds and of the lateral offset agree: for every
`s` in `[0, cycle_length)` and all `r`, `h`, the value `r` lies within the
circuit lane's `lane_bounds(s)` (resp. `driveable_bounds(s)`) if and only if the
lateral offset of `ProjectToSourceRoad(s, r, h)` lies within the source lane's
lane bounds (resp. driveable bounds) at the projected source `s`. -/
theorem bounds_consistent_with_projection (fuel : Nat) (src : SourceRoad) (start : LaneEnd)
    (path : List LaneId) (lane : Lane)
    (h : Lane.ctor fuel src start path = Res.ok lane)
    (s r ht : ℚ) (h0 : 0 ≤ s) (h1 : s < lane.cycle_length_) :
    ∃ b d rp rev, lane.do_lane_bounds src s = some b ∧
      lane.do_driveable_bounds src s = some d ∧
      lane.ProjectToSourceRoad src ⟨s, r, ht⟩ = some (rp, rev) ∧
      ((b.r_min ≤ r ∧ r ≤ b.r_max) ↔
        ((src.lane_bounds rp.lane rp.pos.s).r_min ≤ rp.pos.r ∧
          rp.pos.r ≤ (src.lane_bounds rp.lane rp.pos.s).r_max)) ∧
      ((d.r_min ≤ r ∧ r ≤ d.r_max) ↔
        ((src.driveable_bounds rp.lane rp.pos.s).r_min ≤ rp.pos.r ∧
          rp.pos.r ≤ (src.driveable_bounds rp.lane rp.pos.s).r_max)) := by
  obtain ⟨hm, _⟩ := ctor_measured h
  obtain ⟨i, rec, hi, hs, he, hpr⟩ := scan_measured_all hm s h0 h1
  have hp0 : lane.ProjectToSourceRoad src ⟨s, 0, 0⟩ = _ := hpr ⟨s, 0, 0⟩
  have hp := hpr ⟨s, r, ht⟩
  cases hrev : rec.is_reversed
  · rw [hrev] at hp hp0
    refine ⟨_, _, _, false, by unfold Lane.do_lane_bounds; rw [hp0],
      by unfold Lane.do_driveable_bounds; rw [hp0], hp, ?_, ?_⟩ <;> simp
  · rw [hrev] at hp hp0
    refine ⟨_, _, _, true, by unfold Lane.do_lane_bounds; rw [hp0],
      by unfold Lane.do_driveable_bounds; rw [hp0], hp, ?_, ?_⟩
    · simp only [if_true]
      constructor
      · rintro ⟨h2, h3⟩
        constructor <;> linarith
      · rintro ⟨h2, h3⟩
        constructor <;> linarith
    · simp only [if_true]
      constructor
      · rintro ⟨h2, h3⟩
        constructor <;> linarith
      · rintro ⟨h2, h3⟩
        constructor <;> linarith

/-- Witness for C20: at coordinate 10 of `demoLane` (a reversed record). -/
theorem bounds_consistent_with_projection_witness :
    ∃ b d rp rev, demoLane.do_lane_bounds demoRoad 10 = some b ∧
      demoLane.do_driveable_bounds demoRoad 10 = some d ∧
      demoLane.ProjectToSourceRoad demoRoad ⟨10, 1, 5⟩ = some (rp, rev) ∧
      ((b.r_min ≤ 1 ∧ 1 ≤ b.r_max) ↔
        ((demoRoad.lane_bounds rp.lane rp.pos.s).r_min ≤ rp.pos.r ∧
          rp.pos.r ≤ (demoRoad.lane_bounds rp.lane rp.pos.s).r_max)) ∧
      ((d.r_min ≤ 1 ∧ 1 ≤ d.r_max) ↔
        ((demoRoad.driveable_bounds rp.lane rp.pos.s).r_min ≤ rp.pos.r ∧
          rp.pos.r ≤ (demoRoad.driveable_bounds rp.lane rp.pos.s).r_max)) :=
  bounds_consistent_with_projection 3 demoRoad ⟨3, Which.kStart⟩ [1, 3] demoLane
    (by decide!) 10 1 5 (by decide!) (by decide!)


/-! ## Negative coordinates -/

/-- Exact-arithmetic lemma: on a constructed lane over source lanes of
non-negative length, a negative coordinate `s < 0` does not make
`ProjectToSourceRoad` fail: the scan stops at the first record (`GetPathIndex`
returns 0) and the returned source coordinate is `s < 0` itself if that record
is not reversed and `L - s` if it is, `L` being the length of its source lane.
That `L - s` exceeds `L` holds without rounding; in `double` a tiny `s` can be
absorbed. -/
theorem negative_coordinate_hits_first_record (fuel : Nat) (src : SourceRoad)
    (start : LaneEnd) (path : List LaneId) (lane : Lane)
    (h : Lane.ctor fuel src start path = Res.ok lane) (hlen : ∀ l, 0 ≤ src.length l)
    (s r ht : ℚ) (hs : s < 0) :
    ∃ first rp rev, lane.records_[0]? = some first ∧ lane.GetPathIndex s = some 0 ∧
      lane.ProjectToSourceRoad src ⟨s, r, ht⟩ = some (rp, rev) ∧
      rp.lane = first.lane ∧ rev = first.is_reversed ∧ rp.pos.h = ht ∧
      (rev = false → rp.pos.s = s ∧ rp.pos.r = r ∧ rp.pos.s < 0) ∧
      (rev = true → rp.pos.s = src.length first.lane - s ∧ rp.pos.r = -r ∧
        src.length first.lane < rp.pos.s) := by
  obtain ⟨hm, hne⟩ := ctor_measured h
  cases hrs : lane.records_ with
  | nil => exact absurd hrs hne
  | cons first rest =>
    rw [hrs] at hm
    obtain ⟨h1, h2, _⟩ := hm
    have hL := hlen first.lane
    have hlt : s < first.end_circuit_s := by rw [h2]; linarith
    have hg : lane.GetPathIndex s = some 0 := by
      simp [Lane.GetPathIndex, Lane.circuit_s, hrs, GetPathIndex_loop, hlt]
    cases hrev : first.is_reversed
    · refine ⟨first, ⟨first.lane, ⟨s, r, ht⟩⟩, false, List.getElem?_cons_zero, hg, ?_, rfl,
        hrev.symm, rfl, ?_, by simp⟩
      · simp [Lane.ProjectToSourceRoad, Lane.circuit_s, hrs, ProjectToSourceRoad_loop, hlt,
          hrev, h1]
      · intro _
        exact ⟨rfl, rfl, hs⟩
    · refine ⟨first, ⟨first.lane, ⟨src.length first.lane - s, -r, ht⟩⟩, true,
        List.getElem?_cons_zero, hg, ?_, rfl, hrev.symm, rfl, by simp, ?_⟩
      · simp [Lane.ProjectToSourceRoad, Lane.circuit_s, hrs, ProjectToSourceRoad_loop, hlt,
          hrev, h1]
      · intro _
        refine ⟨rfl, rfl, ?_⟩
        simp only
        linarith

/-- Instance of the exact-arithmetic lemma: on the lane built over `demoRoad`
from the finish of lane 1 along the path 3 (lane 1 reversed, then lane 3
reversed) the coordinate `-2` is projected to lane 1 at `10 - (-2) = 12`,
beyond its length 10. -/
theorem negative_coordinate_hits_first_record_witness :
    ∃ first rp rev,
      (Lane.mk [⟨1, 0, 10, true⟩, ⟨3, 10, 17, true⟩] 17).records_[0]? = some first ∧
      (Lane.mk [⟨1, 0, 10, true⟩, ⟨3, 10, 17, true⟩] 17).GetPathIndex (-2) = some 0 ∧
      (Lane.mk [⟨1, 0, 10, true⟩, ⟨3, 10, 17, true⟩] 17).ProjectToSourceRoad demoRoad
        ⟨-2, 1, 5⟩ = some (rp, rev) ∧
      rp.lane = first.lane ∧ rev = first.is_reversed ∧ rp.pos.h = 5 ∧
      (rev = false → rp.pos.s = -2 ∧ rp.pos.r = 1 ∧ rp.pos.s < 0) ∧
      (rev = true → rp.pos.s = demoRoad.length first.lane - -2 ∧ rp.pos.r = -1 ∧
        demoRoad.length first.lane < rp.pos.s) :=
  negative_coordinate_hits_first_record 2 demoRoad ⟨1, Which.kFinish⟩ [3]
    ⟨[⟨1, 0, 10, true⟩, ⟨3, 10, 17, true⟩], 17⟩ (by decide!) demoRoad_length_nonneg
    (-2) 1 5 (by decide!)


end InfiniteCircuitRoad

namespace automotive

open InfiniteCircuitRoad

/-! ## The demo: initial positions -/

theorem half_index_lt (i n : Nat) (h : i < n) :
    (0 : ℚ) ≤ ((i / 2 : Nat) : ℚ) / (n : ℚ) ∧ ((i / 2 : Nat) : ℚ) / (n : ℚ) < 1 / 2 := by
  have hn : (0 : ℚ) < (n : ℚ) := by exact_mod_cast Nat.lt_of_le_of_lt (Nat.zero_le i) h
  have h2 : 2 * (i / 2) < n := Nat.lt_of_le_of_lt (Nat.mul_div_le i 2) h
  have h2q : (2 : ℚ) * ((i / 2 : Nat) : ℚ) < (n : ℚ) := by exact_mod_cast h2
  constructor
  · exact div_nonneg (Nat.cast_nonneg _) hn.le
  · rw [div_lt_iff₀ hn]
    linarith

theorem ego_car_at {cycle_length : ℚ} {ego_car_names : List String} {i : Nat}
    {c : EndlessRoadCarArgs} (h : (main_ego_cars cycle_length ego_car_names)[i]? = some c) :
    ∃ given_name, ego_car_names[i]? = some given_name ∧
      c.longitudinal_start =
        cycle_length * (((i / 2 : Nat) : ℚ) / (ego_car_names.length : ℚ) + 1 / 2) ∧
      c.channel_name = MakeChannelName given_name := by
  unfold main_ego_cars at h
  rw [List.getElem?_map, List.getElem?_enum] at h
  cases hn : ego_car_names[i]? with
  | none => rw [hn] at h; cases h
  | some given_name =>
    rw [hn] at h
    simp only [Option.map_some', Option.some.injEq] at h
    subst h
    exact ⟨given_name, rfl, by simp, rfl⟩

theorem ado_car_at {cycle_length : ℚ} {FLAGS_use_idm : Bool} {FLAGS_num_ado_car : Int}
    {i : Nat} {c : EndlessRoadCarArgs}
    (h : (main_ado_cars cycle_length FLAGS_use_idm FLAGS_num_ado_car)[i]? = some c) :
    (i : Int) < FLAGS_num_ado_car ∧
      c.longitudinal_start =
        if FLAGS_use_idm then cycle_length * (i : ℚ) / (FLAGS_num_ado_car : ℚ) / 2
        else cycle_length * ((i / 2 : Nat) : ℚ) / (FLAGS_num_ado_car : ℚ) := by
  unfold main_ado_cars at h
  cases FLAGS_use_idm
  · simp only [Bool.false_eq_true, if_false, List.getElem?_map] at h ⊢
    by_cases hi : i < FLAGS_num_ado_car.toNat
    · rw [List.getElem?_range hi] at h
      simp only [Option.map_some', Option.some.injEq] at h
      subst h
      exact ⟨by omega, rfl⟩
    · rw [List.getElem?_eq_none (by simpa using hi)] at h
      cases h
  · simp only [if_true, List.getElem?_map] at h ⊢
    by_cases hi : i < FLAGS_num_ado_car.toNat
    · rw [List.getElem?_range hi] at h
      simp only [Option.map_some', Option.some.injEq] at h
      subst h
      exact ⟨by omega, rfl⟩
    · rw [List.getElem?_eq_none (by simpa using hi)] at h
      cases h

theorem ego_start_range {cycle_length : ℚ} (hc : 0 < cycle_length) {i n : Nat} (h : i < n) :
    cycle_length / 2 ≤ cycle_length * (((i / 2 : Nat) : ℚ) / (n : ℚ) + 1 / 2) ∧
      cycle_length * (((i / 2 : Nat) : ℚ) / (n : ℚ) + 1 / 2) < cycle_length := by
  obtain ⟨h0, h1⟩ := half_index_lt i n h
  have ha := mul_nonneg hc.le h0
  have hb := mul_pos hc (sub_pos.mpr h1)
  constructor <;> nlinarith

theorem ado_start_range {cycle_length : ℚ} (hc : 0 < cycle_length) {i : Nat} {m : Int}
    (h : (i : Int) < m) :
    (0 ≤ cycle_length * ((i / 2 : Nat) : ℚ) / (m : ℚ) ∧
      cycle_length * ((i / 2 : Nat) : ℚ) / (m : ℚ) < cycle_length / 2) ∧
    (0 ≤ cycle_length * (i : ℚ) / (m : ℚ) / 2 ∧
      cycle_length * (i : ℚ) / (m : ℚ) / 2 < cycle_length / 2) := by
  have hm0 : (0 : Int) ≤ m := by omega
  have hmn : ((m.toNat : Nat) : ℚ) = (m : ℚ) := by
    have := Int.toNat_of_nonneg hm0
    exact_mod_cast this
  have hin : i < m.toNat := by omega
  obtain ⟨h0, h1⟩ := half_index_lt i m.toNat hin
  rw [hmn] at h0 h1
  have hmpos : (0 : ℚ) < (m : ℚ) := by
    have : (0 : Int) < m := by omega
    exact_mod_cast this
  have hiq : (i : ℚ) < (m : ℚ) := by exact_mod_cast h
  have hfrac0 : (0 : ℚ) ≤ (i : ℚ) / (m : ℚ) := div_nonneg (Nat.cast_nonneg _) hmpos.le
  have hfrac1 : (i : ℚ) / (m : ℚ) < 1 := (div_lt_one hmpos).mpr hiq
  have e1 : cycle_length * ((i / 2 : Nat) : ℚ) / (m : ℚ) =
      cycle_length * (((i / 2 : Nat) : ℚ) / (m : ℚ)) := by ring
  have e2 : cycle_length * (i : ℚ) / (m : ℚ) / 2 = cycle_length * ((i : ℚ) / (m : ℚ)) / 2 := by
    ring
  rw [e1, e2]
  have ha := mul_nonneg hc.le h0
  have hb := mul_pos hc (sub_pos.mpr h1)
  have hd := mul_nonneg hc.le hfrac0
  have he := mul_pos hc (sub_pos.mpr hfrac1)
  refine ⟨⟨ha, by nlinarith⟩, ⟨by linarith, by nlinarith⟩⟩

/-- Exact-arithmetic lemma: when the products and quotients are taken without
rounding, for every `cycle_length > 0`, every list of ego-car names and every
number of ado cars, each initial longitudinal coordinate of the demo lies in
`[0, cycle_length)`: ego car `i` of `n` starts at
`cycle_length * ((i div 2) / n + 1/2)`, in `[cycle_length / 2, cycle_length)`;
ado car `i` of `m` starts at `cycle_length * (i div 2) / m` (constant speed) or
`cycle_length * i / m / 2` (IDM), both in `[0, cycle_length / 2)`; on a circuit
lane with that cycle length `ProjectToSourceRoad` then succeeds at every initial
position.  In `double` the products can round up to `cycle_length` or overflow. -/
theorem demo_starts_in_range (cycle_length : ℚ) (hc : 0 < cycle_length)
    (ego_car_names : List String) (FLAGS_num_ado_car : Int) :
    (∀ (i : Nat) (c : EndlessRoadCarArgs),
      (main_ego_cars cycle_length ego_car_names)[i]? = some c →
      c.longitudinal_start =
        cycle_length * (((i / 2 : Nat) : ℚ) / (ego_car_names.length : ℚ) + 1 / 2) ∧
      cycle_length / 2 ≤ c.longitudinal_start ∧ c.longitudinal_start < cycle_length) ∧
    (∀ (i : Nat) (c : EndlessRoadCarArgs),
      (main_ado_cars cycle_length false FLAGS_num_ado_car)[i]? = some c →
      c.longitudinal_start =
        cycle_length * ((i / 2 : Nat) : ℚ) / (FLAGS_num_ado_car : ℚ) ∧
      0 ≤ c.longitudinal_start ∧ c.longitudinal_start < cycle_length / 2) ∧
    (∀ (i : Nat) (c : EndlessRoadCarArgs),
      (main_ado_cars cycle_length true FLAGS_num_ado_car)[i]? = some c →
      c.longitudinal_start = cycle_length * (i : ℚ) / (FLAGS_num_ado_car : ℚ) / 2 ∧
      0 ≤ c.longitudinal_start ∧ c.longitudinal_start < cycle_length / 2) ∧
    (∀ (FLAGS_use_idm : Bool) (c : EndlessRoadCarArgs),
      c ∈ main_ego_cars cycle_length ego_car_names ++
        main_ado_cars cycle_length FLAGS_use_idm FLAGS_num_ado_car →
      (0 ≤ c.longitudinal_start ∧ c.longitudinal_start < cycle_length) ∧
      ∀ (fuel : Nat) (src : SourceRoad) (start : LaneEnd) (path : List LaneId) (lane : Lane),
        Lane.ctor fuel src start path = Res.ok lane → lane.cycle_length_ = cycle_length →
        ∀ ht : ℚ, ∃ rp rev, lane.ProjectToSourceRoad src
          ⟨c.longitudinal_start, c.lateral_offset, ht⟩ = some (rp, rev)) := by
  have hego : ∀ (i : Nat) (c : EndlessRoadCarArgs),
      (main_ego_cars cycle_length ego_car_names)[i]? = some c →
      c.longitudinal_start =
        cycle_length * (((i / 2 : Nat) : ℚ) / (ego_car_names.length : ℚ) + 1 / 2) ∧
      cycle_length / 2 ≤ c.longitudinal_start ∧ c.longitudinal_start < cycle_length := by
    intro i c h
    obtain ⟨given_name, hn, hs, _⟩ := ego_car_at h
    have hi : i < ego_car_names.length := (List.getElem?_eq_some_iff.mp hn).1
    rw [hs]
    exact ⟨rfl, ego_start_range hc hi⟩
  have hcv : ∀ (i : Nat) (c : EndlessRoadCarArgs),
      (main_ado_cars cycle_length false FLAGS_num_ado_car)[i]? = some c →
      c.longitudinal_start =
        cycle_length * ((i / 2 : Nat) : ℚ) / (FLAGS_num_ado_car : ℚ) ∧
      0 ≤ c.longitudinal_start ∧ c.longitudinal_start < cycle_length / 2 := by
    intro i c h
    obtain ⟨hi, hs⟩ := ado_car_at h
    simp only [Bool.false_eq_true, if_false] at hs
    rw [hs]
    exact ⟨rfl, (ado_start_range hc hi).1⟩
  have hidm : ∀ (i : Nat) (c : EndlessRoadCarArgs),
      (main_ado_cars cycle_length true FLAGS_num_ado_car)[i]? = some c →
      c.longitudinal_start = cycle_length * (i : ℚ) / (FLAGS_num_ado_car : ℚ) / 2 ∧
      0 ≤ c.longitudinal_start ∧ c.longitudinal_start < cycle_length / 2 := by
    intro i c h
    obtain ⟨hi, hs⟩ := ado_car_at h
    simp only [if_true] at hs
    rw [hs]
    exact ⟨rfl, (ado_start_range hc hi).2⟩
  refine ⟨hego, hcv, hidm, ?_⟩
  intro FLAGS_use_idm c hmem
  have hrange : 0 ≤ c.longitudinal_start ∧ c.longitudinal_start < cycle_length := by
    rcases List.mem_append.mp hmem with hm | hm
    · obtain ⟨i, hi⟩ := List.getElem?_of_mem hm
      obtain ⟨_, h1, h2⟩ := hego i c hi
      exact ⟨by linarith, h2⟩
    · obtain ⟨i, hi⟩ := List.getElem?_of_mem hm
      cases FLAGS_use_idm
      · obtain ⟨_, h1, h2⟩ := hcv i c hi
        exact ⟨h1, by linarith⟩
      · obtain ⟨_, h1, h2⟩ := hidm i c hi
        exact ⟨h1, by linarith⟩
  refine ⟨hrange, ?_⟩
  intro fuel src start path lane hl hcl ht
  obtain ⟨hm, _⟩ := ctor_measured hl
  obtain ⟨i, rec, _, _, _, _, hpr⟩ := scan_measured hm
    ⟨c.longitudinal_start, c.lateral_offset, ht⟩ c.longitudinal_start 0 hrange.1
    (by rw [hcl]; exact hrange.2)
  exact ⟨_, _, hpr⟩

/-- Instance of the exact-arithmetic lemma: cycle length 30, three ego cars and
three ado cars. -/
theorem demo_starts_in_range_witness :
    (0 : ℚ) < 30 ∧
      (main_ego_cars 30 ["Abel", "", "Cara"]).map (fun c => c.longitudinal_start) =
        [15, 15, 25] ∧
      (main_ado_cars 30 false 3).map (fun c => c.longitudinal_start) = [0, 0, 10] ∧
      (main_ado_cars 30 true 3).map (fun c => c.longitudinal_start) = [0, 5, 10] ∧
      ∀ (FLAGS_use_idm : Bool) (c : EndlessRoadCarArgs),
        c ∈ main_ego_cars 30 ["Abel", "", "Cara"] ++ main_ado_cars 30 FLAGS_use_idm 3 →
        0 ≤ c.longitudinal_start ∧ c.longitudinal_start < 30 :=
  ⟨by decide!, by decide!, by decide!, by decide!,
    fun FLAGS_use_idm c hc =>
      ((demo_starts_in_range 30 (by decide!) ["Abel", "", "Cara"] 3).2.2.2
        FLAGS_use_idm c hc).1⟩


/-! ## The demo: ego-car names and channels -/

theorem getline_chars_rest (delim : Char) (c : Char) (cs : List Char) :
    (getline_chars delim (c :: cs)).2.length ≤ cs.length := by
  induction cs generalizing c with
  | nil =>
    simp only [getline_chars]
    split <;> simp [getline_chars]
  | cons d ds ih =>
    rw [getline_chars]
    split
    · simp
    · exact Nat.le_succ_of_le (ih d)

theorem names_loop_ok (fuel : Nat) (name_stream : List Char) (ego_car_names : List String)
    (h : name_stream.length < fuel) :
    ∃ more, names_loop fuel name_stream ego_car_names = Res.ok (ego_car_names ++ more) ∧
      (name_stream ≠ [] → more ≠ []) := by
  induction fuel generalizing name_stream ego_car_names with
  | zero => omega
  | succ n ih =>
    cases name_stream with
    | nil => exact ⟨[], by simp [names_loop, getline], fun hne => absurd rfl hne⟩
    | cons c cs =>
      have hrest : (getline_chars ',' (c :: cs)).2.length < n :=
        Nat.lt_of_le_of_lt (getline_chars_rest ',' c cs) (by simpa using h)
      simp only [names_loop, getline]
      split
      · obtain ⟨more, hm, _⟩ := ih (getline_chars ',' (c :: cs)).2 (ego_car_names ++ [""]) hrest
        refine ⟨"" :: more, ?_, by simp⟩
        rw [hm]
        simp
      · obtain ⟨more, hm, _⟩ := ih (getline_chars ',' (c :: cs)).2
          (ego_car_names ++ [String.mk (getline_chars ',' (c :: cs)).1]) hrest
        refine ⟨String.mk (getline_chars ',' (c :: cs)).1 :: more, ?_, by simp⟩
        rw [hm]
        simp

theorem names_loop_mono {fuel fuel' : Nat} {name_stream : List Char}
    {ego_car_names result : List String}
    (h : names_loop fuel name_stream ego_car_names = Res.ok result) (hle : fuel ≤ fuel') :
    names_loop fuel' name_stream ego_car_names = Res.ok result := by
  induction fuel generalizing fuel' name_stream ego_car_names with
  | zero => simp [names_loop] at h
  | succ n ih =>
    cases fuel' with
    | zero => omega
    | succ m =>
      simp only [names_loop] at h ⊢
      have hnm : n ≤ m := by omega
      split at h
      · exact h
      · split at h
        · rename_i hname
          rw [if_pos hname]
          exact ih h hnm
        · rename_i hname
          rw [if_neg hname]
          exact ih h hnm

theorem ego_channels (cycle_length : ℚ) (ego_car_names : List String) :
    (main_ego_cars cycle_length ego_car_names).map (fun c => c.channel_name) =
      ego_car_names.map MakeChannelName := by
  apply List.ext_getElem?
  intro i
  simp only [main_ego_cars, List.getElem?_map, List.getElem?_enum]
  cases ego_car_names[i]? <;> simp

theorem string_toList_ne_nil {s : String} (h : s ≠ "") : s.toList ≠ [] := by
  intro hnil
  apply h
  cases s with
  | mk l =>
    simp only [String.toList] at hnil
    subst hnil
    rfl

/-- C23: `MakeChannelName` returns `"DRIVING_COMMAND"` for the empty name and
`"DRIVING_COMMAND_"` followed by the name for every non-empty name.  Hence the
flag value `Abel,Bacon,Cara` yields exactly the three ego-car names `Abel`,
`Bacon`, `Cara`, subscribed to `DRIVING_COMMAND_Abel`, `DRIVING_COMMAND_Bacon`
and `DRIVING_COMMAND_Cara` (with or without a road); a non-empty
`ego_car_names` flag yields at least one ego car even when `use_ego_car` is
false; and an empty flag with `use_ego_car` true yields exactly one ego car, on
`DRIVING_COMMAND`. -/
theorem channel_names_and_ego_cars :
    MakeChannelName "" = "DRIVING_COMMAND" ∧
    (∀ name : String, name ≠ "" → MakeChannelName name = "DRIVING_COMMAND_" ++ name) ∧
    (∀ (fuel : Nat) (FLAGS_use_ego_car : Bool), 4 ≤ fuel →
      main_ego_car_names fuel FLAGS_use_ego_car "Abel,Bacon,Cara" =
        Res.ok ["Abel", "Bacon", "Cara"]) ∧
    (main_simple_cars ["Abel", "Bacon", "Cara"]).map (fun c => c.2) =
      ["DRIVING_COMMAND_Abel", "DRIVING_COMMAND_Bacon", "DRIVING_COMMAND_Cara"] ∧
    (∀ cycle_length : ℚ,
      (main_ego_cars cycle_length ["Abel", "Bacon", "Cara"]).map (fun c => c.channel_name) =
        ["DRIVING_COMMAND_Abel", "DRIVING_COMMAND_Bacon", "DRIVING_COMMAND_Cara"]) ∧
    (∀ (fuel : Nat) (FLAGS_ego_car_names : String),
      FLAGS_ego_car_names ≠ "" → FLAGS_ego_car_names.length < fuel →
      ∃ names, main_ego_car_names fuel false FLAGS_ego_car_names = Res.ok names ∧
        names ≠ [] ∧ main_simple_cars names ≠ [] ∧
        ∀ cycle_length : ℚ, main_ego_cars cycle_length names ≠ []) ∧
    (∀ fuel : Nat, main_ego_car_names fuel true "" = Res.ok [""]) ∧
    main_simple_cars [""] = [("", "DRIVING_COMMAND")] ∧
    (∀ cycle_length : ℚ,
      (main_ego_cars cycle_length [""]).map (fun c => c.channel_name) =
        ["DRIVING_COMMAND"]) := by
  refine ⟨by decide, ?_, ?_, by decide, ?_, ?_, ?_, by decide, ?_⟩
  · intro name hne
    simp only [MakeChannelName, hne, if_false]
    rw [show "DRIVING_COMMAND" ++ "_" = "DRIVING_COMMAND_" by decide]
  · intro fuel use hf
    have h4 : names_loop 4 "Abel,Bacon,Cara".toList [] = Res.ok ["Abel", "Bacon", "Cara"] := by
      decide
    have hne : ("Abel,Bacon,Cara" : String) ≠ "" := by decide
    unfold main_ego_car_names
    rw [if_neg (fun hh => hne hh.2), if_pos hne]
    exact names_loop_mono h4 hf
  · intro cycle_length
    rw [ego_channels]
    decide
  · intro fuel flag hne hf
    obtain ⟨more, hm, hmore⟩ := names_loop_ok fuel flag.toList [] hf
    have hmne := hmore (string_toList_ne_nil hne)
    have hres : main_ego_car_names fuel false flag = Res.ok more := by
      unfold main_ego_car_names
      rw [if_neg (fun hh => hne hh.2), if_pos hne, hm, List.nil_append]
    refine ⟨more, hres, hmne, ?_, ?_⟩
    · simpa [main_simple_cars] using hmne
    · intro cycle_length
      simpa [main_ego_cars] using hmne
  · intro fuel
    simp [main_ego_car_names]
  · intro cycle_length
    rw [ego_channels]
    decide

/-- Witness for C23: the non-empty flag value `Abel` with `use_ego_car` false
still provisions an ego car. -/
theorem channel_names_and_ego_cars_witness :
    ("Abel" : String) ≠ "" ∧ ("Abel" : String).length < 5 ∧
      ∃ names, main_ego_car_names 5 false "Abel" = Res.ok names ∧
        names ≠ [] ∧ main_simple_cars names ≠ [] ∧
        ∀ cycle_length : ℚ, main_ego_cars cycle_length names ≠ [] :=
  ⟨by decide, by decide,
    channel_names_and_ego_cars.2.2.2.2.2.1 5 "Abel" (by decide) (by decide)⟩


end automotive
